/-
  Verification of the Probit sparse-regression model (`bss/models/probit.py`)
  against its natural-language specification.

  The development is a shallow embedding of `probit.py`:
  * Machine floats are idealized as rationals (`ℚ`); the value `-np.inf`
    returned by log-density closures is modelled by `⊥` in `WithBot ℚ`;
    a raised Python exception is modelled by `Except.error`.
  * The external collaborators that are not part of the repository sources
    (the `Mvn` Gaussian-field class, the two generic samplers, `numpy`/`scipy`
    primitives and the `cachetools` library) are modelled from their
    documented semantics / from the specification, each with a doc comment
    saying so.  Random draws are modelled as oracle functions passed in
    explicitly.
  * Everything in `probit.py` itself (covariance formulas, cache usage,
    update orchestration, the MCMC trace bookkeeping) is translated
    directly from the source.
-/
import Mathlib

namespace BSS

open Matrix

/-! ### Model of `cachetools.Cache`

`probit.py` line 2 imports `Cache` from `cachetools` and uses it (lines
95 and 101) as the bounded mapping behind `@cachedmethod`.  `cachetools.Cache`
is a bounded mutable mapping backed by an insertion-ordered `dict`:

* `__getitem__` returns the stored value and does not reorder anything
  (only the `LRUCache` subclass, which the repository does not use, touches
  entries on access);
* `__setitem__` of a fresh key first evicts, while the cache is full, the
  entry returned by `popitem`, which pops the first (earliest-inserted)
  key of the backing `dict`; the new pair is then appended at the end;
* `__setitem__` of a present key overwrites the value in place, keeping the
  key's original position.

We model the backing `dict` as a list of key/value pairs in insertion
order (head = earliest inserted).  All stored values have size 1 and
`maxsize ≥ 1` throughout this development (the model uses 4 and 8), so the
eviction `while` loop pops at most one entry per insertion; the model pops
exactly `length + 1 - maxsize` entries, which coincides with the library
for every reachable cache (`length ≤ maxsize`). -/
structure CtCache (κ α : Type) where
  maxsize : ℕ
  items : List (κ × α)

variable {κ α : Type} [DecidableEq κ]

/-- `Cache.__getitem__` / `__contains__`: find the value stored at `k`;
no reordering happens on a hit. -/
def CtCache.lookup (c : CtCache κ α) (k : κ) : Option α :=
  (c.items.find? (fun p => p.1 = k)).map (fun p => p.2)

/-- `Cache.__setitem__`: overwrite in place if the key is present,
otherwise evict from the front while full, then append at the back. -/
def CtCache.set (c : CtCache κ α) (k : κ) (v : α) : CtCache κ α :=
  if (c.items.find? (fun p => p.1 = k)).isSome then
    { c with items := c.items.map (fun p => if p.1 = k then (p.1, v) else p) }
  else
    { c with items := c.items.drop (c.items.length + 1 - c.maxsize) ++ [(k, v)] }

/-- The wrapper produced by `@cachedmethod(cache=..., key=_cache_key)`
(`probit.py` lines 113 and 132): compute the key, return the stored value on
a hit, otherwise run the method body and store the result.  The returned
`Bool` is `true` when the call constructed a fresh value (a cache miss). -/
def cachedCall (c : CtCache κ α) (k : κ) (compute : Unit → α) :
    α × CtCache κ α × Bool :=
  match c.lookup k with
  | some v => (v, c, false)
  | none => let v := compute (); (v, c.set k v, true)

/-! ### Model of `Probit._cache_key` (`probit.py` lines 106-111)

The key function receives the tuple of call arguments (including `self`,
which `cachetools.cachedmethod` passes through to the key function) and
builds `hash(tuple(hash(arg.data.tobytes()) if isinstance(arg, np.ndarray)
else arg for arg in args))`.  We model Python's `hash` on the resulting
tuple as injective (the standard idealization: the claims are about which
arguments collide by construction, not about 64-bit hash collisions), so a
key is the list of per-argument atoms:

* an `ndarray` argument contributes its raw content bytes
  (`arg.data.tobytes()`), modelled by its list of entries — the object
  identity (`oid`) is dropped;
* a numeric scalar contributes its value;
* any other object (such as `self`) contributes Python's default
  identity-based hash, modelled by its `oid`. -/
inductive PyArg : Type
  | num (q : ℚ)
  | arr (oid : ℕ) (bytes : List ℚ)
  | obj (oid : ℕ)

inductive PyKeyAtom : Type
  | num (q : ℚ)
  | bytes (b : List ℚ)
  | objid (i : ℕ)
deriving DecidableEq

/-- `Probit._cache_key(*args)` (`probit.py` line 111). -/
def cache_key (args : List PyArg) : List PyKeyAtom :=
  args.map (fun a =>
    match a with
    | .num q => .num q
    | .arr _ b => .bytes b
    | .obj i => .objid i)

/-- An `ndarray` vector argument together with its Python object identity.
Only the `data` takes part in cache keys; the `oid` models `id(...)`. -/
structure NdVec (P : ℕ) where
  oid : ℕ
  data : Fin P → ℚ

/-! ### The pure covariance formulas of `probit.py` -/

/-- `np.ones((N, N))`. -/
def onesMat (N : ℕ) : Matrix (Fin N) (Fin N) ℚ :=
  Matrix.of (fun _ _ => (1 : ℚ))

/-- `X[:, gamma > gamma0]` (`probit.py` line 193): the submatrix of `X`
keeping exactly the columns `j` with `gamma j > gamma0`. -/
def maskedX {N P : ℕ} (X : Matrix (Fin N) (Fin P) ℚ) (g : Fin P → ℚ) (g0 : ℚ) :
    Matrix (Fin N) {j : Fin P // g0 < g j} ℚ :=
  Matrix.of (fun i j => X i j.1)

/-- The covariance handed to `Mvn` by `Probit.ppi_distribution`
(`probit.py` line 194): `(np.dot(X, X.T) + np.ones((N, N))) / lamb + np.eye(N)`
with `X` already masked to the columns above the threshold. -/
def ppiCov {N P : ℕ} (X : Matrix (Fin N) (Fin P) ℚ) (g : Fin P → ℚ)
    (g0 lamb : ℚ) : Matrix (Fin N) (Fin N) ℚ :=
  lamb⁻¹ • (maskedX X g g0 * (maskedX X g g0)ᵀ + onesMat N) + 1

/-- The covariance handed to `Mvn` by `Probit.probit_distribution`
(`probit.py` line 130): `xi * R.cov + (1 - xi) * np.eye(P)`, where `Rcov`
is the regularized covariance stored in the `Mvn` wrapped around `R`. -/
def probitCov {P : ℕ} (Rcov : Matrix (Fin P) (Fin P) ℚ) (xi : ℚ) :
    Matrix (Fin P) (Fin P) ℚ :=
  xi • Rcov + (1 - xi) • (1 : Matrix (Fin P) (Fin P) ℚ)

/-! ### Models of the `scipy.stats` distribution objects

Modelled from scipy's documented semantics: `norm(loc, scale)` is the
normal distribution with mean `loc` and standard deviation `scale` (so its
variance is `scale ** 2`); `gamma(a, scale=s)` has mean `a * s`;
`beta(a, b)` has mean `a / (a + b)`.  Their log-densities are
transcendental, so they are oracle functions in `Oracles` below. -/
structure ScipyNorm where
  loc : ℚ
  scale : ℚ
deriving DecidableEq

/-- `scipy.stats.norm(loc, scale).mean()` is `loc`. -/
def ScipyNorm.mean (d : ScipyNorm) : ℚ := d.loc

/-- The variance of `scipy.stats.norm(loc, scale)` is `scale ** 2`
(`scale` is the standard deviation, not the variance). -/
def ScipyNorm.variance (d : ScipyNorm) : ℚ := d.scale ^ 2

structure ScipyGamma where
  shape : ℚ
  scale : ℚ
deriving DecidableEq

/-- `scipy.stats.gamma(a, scale=s).mean()` is `a * s`. -/
def ScipyGamma.mean (d : ScipyGamma) : ℚ := d.shape * d.scale

structure ScipyBeta where
  a : ℚ
  b : ℚ
deriving DecidableEq

/-- `scipy.stats.beta(a, b).mean()` is `a / (a + b)`. -/
def ScipyBeta.mean (d : ScipyBeta) : ℚ := d.a / (d.a + d.b)

/-! ### Oracles for the external real-valued computations

Modelled from the spec: the sources of `bss.mvn.Mvn` and of the two
samplers are not part of the repository snapshot, and their operations
(log-densities, whitening transforms, random draws) are irrational-valued.
They enter the model as opaque function parameters; every theorem below
holds for an arbitrary choice of these functions (with explicitly stated
hypotheses where a claim relies on a guarantee the spec gives for them,
e.g. that a gamma variate is strictly positive). -/
structure Oracles (N P : ℕ) where
  /-- The regularized covariance an `Mvn` constructed from `R` with the
  given `min_eigenval` and `jitter` ends up storing (spec §4.1). -/
  mvnCovP : Matrix (Fin P) (Fin P) ℚ → ℚ → ℚ → Matrix (Fin P) (Fin P) ℚ
  /-- `Mvn.logpdf(y, precision_multiplier)` of an `N`-dimensional `Mvn`,
  as a function of the covariance handed to the constructor. -/
  lpdfN : Matrix (Fin N) (Fin N) ℚ → (Fin N → ℚ) → ℚ → ℚ
  /-- `Mvn.maha(y)` of an `N`-dimensional `Mvn`, as a function of the
  covariance handed to the constructor: the squared Mahalanobis distance
  of `y` under the distribution's internally regularized covariance
  (eigenvalue floor, covariance-to-correlation rescale, jitter —
  spec §4.1), which like `logpdf` is determined by the constructor
  input. -/
  mahaN : Matrix (Fin N) (Fin N) ℚ → (Fin N → ℚ) → ℚ
  /-- `Mvn.logpdf(gamma)` of a `P`-dimensional `Mvn`. -/
  lpdfP : Matrix (Fin P) (Fin P) ℚ → (Fin P → ℚ) → ℚ
  /-- `Mvn.whiten(y)`. -/
  whiten : Matrix (Fin P) (Fin P) ℚ → (Fin P → ℚ) → Fin P → ℚ
  /-- `Mvn.correlate(z)`; `none` models the `LinAlgError` the spec says
  this operation raises when the decomposition is singular (spec §4.1). -/
  correlate : Matrix (Fin P) (Fin P) ℚ → (Fin P → ℚ) → Option (Fin P → ℚ)
  /-- `scipy.stats.norm.ppf` (the inverse normal CDF). -/
  normPpf : ℚ → ℚ
  /-- `norm(loc, scale).logpdf(x)`. -/
  normLpdf : ScipyNorm → ℚ → ℚ
  /-- `gamma(shape, scale=s).logpdf(x)`. -/
  gammaLpdf : ScipyGamma → ℚ → ℚ
  /-- `beta(a, b).logpdf(x)`. -/
  betaLpdf : ScipyBeta → ℚ → ℚ

/-- The random draws consumed by one `update_parameters` sweep, modelled
as oracle functions: `essOne cov loglike x0` is
`EllipticalSliceSampler(normal_dist=Mvn(cov), log_like_fn=loglike).one(x0)`;
`sliceG0 f x0` / `sliceLam f x0` / `sliceXi f x0` are
`SliceSampler(f).one(x0)` at the three slice-sampling call sites; and
`gammaVariate shape scale` is `np.random.gamma(shape, scale)`. -/
structure Draws (N P : ℕ) where
  essOne : Matrix (Fin P) (Fin P) ℚ → ((Fin P → ℚ) → ℚ) → (Fin P → ℚ) → Fin P → ℚ
  sliceG0 : (ℚ → ℚ) → ℚ → ℚ
  sliceLam : (ℚ → Except Unit (WithBot ℚ)) → ℚ → ℚ
  sliceXi : (ℚ → WithBot ℚ) → ℚ → ℚ
  gammaVariate : ℚ → ℚ → ℚ

/-! ### The `Probit` model state (`probit.py` lines 64-104) -/

structure ProbitState (N P : ℕ) where
  X : Matrix (Fin N) (Fin P) ℚ
  Y : Fin N → ℚ
  /-- `self.R.cov`: the regularized covariance of the `Mvn` wrapped
  around the input matrix `R`. -/
  Rcov : Matrix (Fin P) (Fin P) ℚ
  check_finite : Bool
  nu_a : ℚ
  nu_b : ℚ
  sample_xi : Bool
  /-- `self._xi_distribution` (stored here even when `xi` is fixed; the
  code only constructs it in the sampled branch, and only the
  `sample_xi = true` paths read it). -/
  xiDist : ScipyBeta
  /-- `self._gamma0_distribution`. -/
  gamma0Dist : ScipyNorm
  /-- `self._lambda_distribution`. -/
  lambdaDist : ScipyGamma
  /-- `self._nu_distribution`. -/
  nuDist : ScipyGamma
  xi : ℚ
  gamma : Fin P → ℚ
  gamma0 : ℚ
  lamb : ℚ
  nu : ℚ
  /-- `id(self)`: the identity hash `_cache_key` uses for the `self`
  argument that `cachedmethod` passes through to the key function. -/
  selfOid : ℕ
  probitCache : CtCache (List PyKeyAtom) (Matrix (Fin P) (Fin P) ℚ)
  ppiCache : CtCache (List PyKeyAtom) (Matrix (Fin N) (Fin N) ℚ)

/-- The cache key of `probit_distribution(xi)`:
`_cache_key(self, xi)`. -/
def probitKey (oid : ℕ) (xi : ℚ) : List PyKeyAtom :=
  cache_key [.obj oid, .num xi]

/-- The cache key of `ppi_distribution(gamma, gamma0, lamb)`:
`_cache_key(self, gamma, gamma0, lamb)`; the `ndarray` argument `gamma`
contributes its content bytes only. -/
def ppiKey {P : ℕ} (oid : ℕ) (g : NdVec P) (g0 lamb : ℚ) : List PyKeyAtom :=
  cache_key [.obj oid, .arr g.oid (List.ofFn g.data), .num g0, .num lamb]

/-- `Probit.probit_distribution` (`probit.py` lines 113-130): a
`cachedmethod` returning `Mvn(cov=xi * R.cov + (1 - xi) * eye(P))`.  The
returned `Bool` is `true` when the distribution was freshly constructed
(a cache miss). -/
def Probit.probit_distribution {N P : ℕ} (st : ProbitState N P) (xi : ℚ) :
    Matrix (Fin P) (Fin P) ℚ × ProbitState N P × Bool :=
  let r := cachedCall st.probitCache (probitKey st.selfOid xi)
    (fun _ => probitCov st.Rcov xi)
  (r.1, { st with probitCache := r.2.1 }, r.2.2)

/-- `Probit.ppi_distribution` (`probit.py` lines 132-194): a
`cachedmethod` returning
`Mvn(cov=(np.dot(X, X.T) + np.ones((N, N))) / lamb + np.eye(N))` with
`X = self.X[:, gamma > gamma0]`. -/
def Probit.ppi_distribution {N P : ℕ} (st : ProbitState N P) (g : NdVec P)
    (g0 lamb : ℚ) : Matrix (Fin N) (Fin N) ℚ × ProbitState N P × Bool :=
  let r := cachedCall st.ppiCache (ppiKey st.selfOid g g0 lamb)
    (fun _ => ppiCov st.X g.data g0 lamb)
  (r.1, { st with ppiCache := r.2.1 }, r.2.2)

/-- `Probit.log_marg_like` (`probit.py` lines 196-217):
`self.ppi_distribution(gamma, gamma0, lamb).logpdf(self.Y, precision_multiplier=nu)`. -/
def Probit.log_marg_like {N P : ℕ} (o : Oracles N P) (st : ProbitState N P)
    (g : NdVec P) (g0 lamb nuv : ℚ) : ℚ × ProbitState N P :=
  let r := Probit.ppi_distribution st g g0 lamb
  (o.lpdfN r.1 st.Y nuv, r.2.1)

/-- `Probit.__init__` (`probit.py` lines 64-104).  `rvs cov` models the
draw `Mvn(cov).rvs()` used to initialize `gamma`; `xiArg = none` models
passing `xi=None`. -/
def Probit.init {N P : ℕ} (o : Oracles N P)
    (rvs : Matrix (Fin P) (Fin P) ℚ → Fin P → ℚ)
    (X : Matrix (Fin N) (Fin P) ℚ) (Y : Fin N → ℚ)
    (R : Matrix (Fin P) (Fin P) ℚ) (target_sparsity gamma0_v : ℚ)
    (lambda_params nu_params : ℚ × ℚ) (xiArg : Option ℚ)
    (xi_prior_shape : ℚ × ℚ) (check_finite : Bool) (min_eigenval jitter : ℚ)
    (selfOid : ℕ) : ProbitState N P :=
  let Rcov := o.mvnCovP R min_eigenval jitter
  let xiDist : ScipyBeta := ⟨xi_prior_shape.1, xi_prior_shape.2⟩
  let xi0 : ℚ := match xiArg with
    | none => xiDist.mean
    | some x => x
  let g0Dist : ScipyNorm := ⟨o.normPpf (1 - target_sparsity), gamma0_v⟩
  let lamDist : ScipyGamma := ⟨lambda_params.1, 1 / lambda_params.2⟩
  let nDist : ScipyGamma := ⟨nu_params.1, 1 / nu_params.2⟩
  let st0 : ProbitState N P :=
    { X := X, Y := Y, Rcov := Rcov, check_finite := check_finite,
      nu_a := nu_params.1, nu_b := nu_params.2,
      sample_xi := xiArg.isNone, xiDist := xiDist, gamma0Dist := g0Dist,
      lambdaDist := lamDist, nuDist := nDist, xi := xi0,
      gamma := fun _ => 0, gamma0 := g0Dist.mean, lamb := lamDist.mean,
      nu := nDist.mean, selfOid := selfOid,
      probitCache := ⟨4, []⟩, ppiCache := ⟨8, []⟩ }
  let r := Probit.probit_distribution st0 xi0
  { r.2.1 with gamma := rvs r.1 }

/-- The defaults of `Probit.__init__` (`probit.py` lines 13-14):
`target_sparsity=0.01, gamma0_v=1.0, lambda_params=(1e-6, 1e-6),
nu_params=(1e-6, 1e-6), xi=0.999999, xi_prior_shape=(1, 1),
check_finite=True, min_eigenval=0, jitter=1e-6`. -/
def Probit.initDefault {N P : ℕ} (o : Oracles N P)
    (rvs : Matrix (Fin P) (Fin P) ℚ → Fin P → ℚ)
    (X : Matrix (Fin N) (Fin P) ℚ) (Y : Fin N → ℚ)
    (R : Matrix (Fin P) (Fin P) ℚ) (selfOid : ℕ) : ProbitState N P :=
  Probit.init o rvs X Y R (1/100) 1 (1/1000000, 1/1000000) (1/1000000, 1/1000000)
    (some (999999/1000000)) (1, 1) true 0 (1/1000000) selfOid

/-! ### The parameter updates (`probit.py` lines 302-442)

The candidate-evaluation closures handed to the generic samplers call the
cached `log_marg_like`.  A cached call whose cache satisfies the validity
predicates below returns exactly the directly-constructed value (proved
in `log_marg_like_val`), and the sampler-internal cache insertions touch
no model parameter, so inside the closures the cached call is modelled by
its pure value `logMargLikePure`; the cache state threaded through an
update is the state produced by the orchestrator-level calls the update
makes directly. -/

/-- The pure value of `log_marg_like(gamma, gamma0, lamb, nu)`:
the log-density of `Y` with precision multiplier `nu` under the freshly
constructed PPI distribution. -/
def Probit.logMargLikePure {N P : ℕ} (o : Oracles N P) (st : ProbitState N P)
    (g : Fin P → ℚ) (g0 lamb nuv : ℚ) : ℚ :=
  o.lpdfN (ppiCov st.X g g0 lamb) st.Y nuv

/-- `Probit.update_gamma` (`probit.py` lines 318-341): one elliptical
slice sampling step with the probit prior for the current `xi` and the
marginal likelihood at the current `gamma0, lamb, nu`. -/
def Probit.update_gamma {N P : ℕ} (o : Oracles N P) (d : Draws N P)
    (st : ProbitState N P) : ProbitState N P :=
  let r := Probit.probit_distribution st st.xi
  let st1 := r.2.1
  let loglike := fun g => Probit.logMargLikePure o st1 g st1.gamma0 st1.lamb st1.nu
  { st1 with gamma := d.essOne r.1 loglike st1.gamma }

/-- `Probit.update_gamma0` (`probit.py` lines 396-414): one slice-sampler
step on `log_marg_like(gamma, gamma0, lamb, nu) + gamma0-prior logpdf`. -/
def Probit.update_gamma0 {N P : ℕ} (o : Oracles N P) (d : Draws N P)
    (st : ProbitState N P) : ProbitState N P :=
  let f := fun g0 => Probit.logMargLikePure o st st.gamma g0 st.lamb st.nu
    + o.normLpdf st.gamma0Dist g0
  { st with gamma0 := d.sliceG0 f st.gamma0 }

/-- The candidate log-density closure of `update_lambda` (`probit.py`
lines 389-392).  `if lamb < 0: return -np.inf`; otherwise the closure
evaluates `log_marg_like(..., lamb, ...) + lambda-prior logpdf`.  At
`lamb = 0` that evaluation divides the covariance by zero: the resulting
non-finite matrix makes the `Mvn` construction fail (spec §4.1/§7 — a
fatal numerical-instability error outside the `xi` path), modelled by
`Except.error`. -/
def Probit.lambdaSliceFn {N P : ℕ} (o : Oracles N P) (st : ProbitState N P)
    (lamb : ℚ) : Except Unit (WithBot ℚ) :=
  if lamb < 0 then .ok ⊥
  else if lamb = 0 then .error ()
  else .ok ((Probit.logMargLikePure o st st.gamma st.gamma0 lamb st.nu
    + o.gammaLpdf st.lambdaDist lamb : ℚ) : WithBot ℚ)

/-- `Probit.update_lambda` (`probit.py` lines 375-394). -/
def Probit.update_lambda {N P : ℕ} (o : Oracles N P) (d : Draws N P)
    (st : ProbitState N P) : ProbitState N P :=
  { st with lamb := d.sliceLam (Probit.lambdaSliceFn o st) st.lamb }

/-- `Probit.update_nu` (`probit.py` lines 343-373): the closed-form
conjugate update `nu = np.random.gamma(nu_a + 0.5 * N, 1 / (nu_b + 0.5 *
maha))` where `maha` is `Mvn.maha(Y)` — the squared Mahalanobis distance
of `Y` under the cached PPI distribution of the current
`(gamma, gamma0, lamb)`, modelled by the `mahaN` oracle applied to that
distribution's constructor covariance.  The `NdVec` oid `0` is
arbitrary: the cache key drops the array's identity. -/
def Probit.update_nu {N P : ℕ} (o : Oracles N P) (d : Draws N P)
    (st : ProbitState N P) : ProbitState N P :=
  let r := Probit.ppi_distribution st ⟨0, st.gamma⟩ st.gamma0 st.lamb
  let distance_sq := o.mahaN r.1 st.Y
  let post_a := st.nu_a + (1/2 : ℚ) * (N : ℚ)
  let post_b := st.nu_b + (1/2 : ℚ) * distance_sq
  { r.2.1 with nu := d.gammaVariate post_a (1 / post_b) }

/-- The candidate log-density closure of `update_xi` (`probit.py` lines
429-438): `-np.inf` outside the open interval `(0, 1)`; a `LinAlgError`
while re-correlating the whitened `gamma` under the candidate `xi`'s
probit distribution is caught and mapped to `-np.inf`; otherwise the
re-correlated `gamma`'s marginal likelihood plus `xi`'s own prior
log-density. -/
def Probit.xiSliceFn {N P : ℕ} (o : Oracles N P) (st : ProbitState N P)
    (whitened : Fin P → ℚ) (x : ℚ) : WithBot ℚ :=
  if x ≤ 0 ∨ 1 ≤ x then ⊥
  else
    match o.correlate (probitCov st.Rcov x) whitened with
    | none => ⊥
    | some g =>
      ((Probit.logMargLikePure o st g st.gamma0 st.lamb st.nu
        + o.betaLpdf st.xiDist x : ℚ) : WithBot ℚ)

/-- `Probit.update_xi` (`probit.py` lines 416-441): whiten the current
`gamma` under the current `xi`'s probit distribution, slice-sample a new
`xi`, then permanently re-correlate `gamma` under the accepted `xi`'s
probit distribution.  The final `correlate` is outside the closure's
`try`: a failure there propagates (`Except.error`). -/
def Probit.update_xi {N P : ℕ} (o : Oracles N P) (d : Draws N P)
    (st : ProbitState N P) : Except Unit (ProbitState N P) :=
  let r0 := Probit.probit_distribution st st.xi
  let st1 := r0.2.1
  let whitened := o.whiten r0.1 st1.gamma
  let xiNew := d.sliceXi (Probit.xiSliceFn o st1 whitened) st1.xi
  let st2 : ProbitState N P := { st1 with xi := xiNew }
  let r1 := Probit.probit_distribution st2 xiNew
  match o.correlate r1.1 whitened with
  | none => .error ()
  | some g => .ok { r1.2.1 with gamma := g }

/-- `Probit.update_parameters` (`probit.py` lines 302-316): one sweep in
the fixed order `gamma, gamma0, lambda, nu`, then `xi` only when
`sample_xi` is set. -/
def Probit.update_parameters {N P : ℕ} (o : Oracles N P) (d : Draws N P)
    (st : ProbitState N P) : Except Unit (ProbitState N P) :=
  let st1 := Probit.update_gamma o d st
  let st2 := Probit.update_gamma0 o d st1
  let st3 := Probit.update_lambda o d st2
  let st4 := Probit.update_nu o d st3
  if st4.sample_xi then Probit.update_xi o d st4 else .ok st4

/-- `Probit.log_joint` (`probit.py` lines 219-236): the sum of the
marginal log-likelihood and every parameter's own prior log-density
(including `xi`'s only when it is sampled). -/
def Probit.log_joint {N P : ℕ} (o : Oracles N P) (st : ProbitState N P) :
    ℚ × ProbitState N P :=
  let r1 := Probit.log_marg_like o st ⟨0, st.gamma⟩ st.gamma0 st.lamb st.nu
  let r2 := Probit.probit_distribution r1.2 st.xi
  (r1.1 + o.normLpdf st.gamma0Dist st.gamma0 + o.gammaLpdf st.nuDist st.nu
    + o.gammaLpdf st.lambdaDist st.lamb + o.lpdfP r2.1 st.gamma
    + (if st.sample_xi then o.betaLpdf st.xiDist st.xi else 0), r2.2.1)

/-! ### `Probit.run_mcmc` (`probit.py` lines 238-300) -/

/-- One row of the detailed traces, recorded for each kept sweep:
`logjoint_trace` and `loglike_trace` are computed before the sweep's
`update_parameters` call, the parameter traces and `inclusion_trace`
after it (`probit.py` lines 269-287). -/
structure SweepRecord (P : ℕ) where
  joint : ℚ
  inc : Fin P → Bool
  g0 : ℚ
  lam : ℚ
  nuv : ℚ
  xiv : ℚ
  like : ℚ

/-- The loop body of `run_mcmc`: `k` counts iterations from `0` (the
source's loop index is `i = k - burn_in`; recording happens for `i >= 0`,
i.e. `burn_in ≤ k`). -/
def Probit.mcmcLoop {N P : ℕ} (o : Oracles N P) (draws : ℕ → Draws N P)
    (burn_in : ℕ) (k : ℕ) (st : ProbitState N P)
    (acc : List (SweepRecord P)) :
    (remaining : ℕ) → Except Unit (List (SweepRecord P) × ProbitState N P)
  | 0 => .ok (acc, st)
  | r + 1 =>
    let j := Probit.log_joint o st
    let l := Probit.log_marg_like o j.2 ⟨0, j.2.gamma⟩ j.2.gamma0 j.2.lamb j.2.nu
    match Probit.update_parameters o (draws k) l.2 with
    | .error e => .error e
    | .ok st' =>
      let acc' := if burn_in ≤ k then
          acc ++ [⟨j.1, fun p => decide (st'.gamma0 < st'.gamma p),
            st'.gamma0, st'.lamb, st'.nu, st'.xi, l.1⟩]
        else acc
      Probit.mcmcLoop o draws burn_in (k + 1) st' acc' r

/-- `run_mcmc(iters, burn_in, ...)`: `burn_in + iters` loop iterations,
recording only the non-negative indices. -/
def Probit.run_mcmc {N P : ℕ} (o : Oracles N P) (draws : ℕ → Draws N P)
    (st : ProbitState N P) (iters burn_in : ℕ) :
    Except Unit (List (SweepRecord P) × ProbitState N P) :=
  Probit.mcmcLoop o draws burn_in 0 st [] (burn_in + iters)

/-- The non-detailed return value of `run_mcmc`: the joint log-density
trace (`probit.py` lines 289-290). -/
def Probit.run_mcmc_joint {N P : ℕ} (o : Oracles N P) (draws : ℕ → Draws N P)
    (st : ProbitState N P) (iters burn_in : ℕ) : Except Unit (List ℚ) :=
  (Probit.run_mcmc o draws st iters burn_in).map
    (fun r => r.1.map (fun s => s.joint))

/-- `np.argmax`: the index of the first occurrence of the maximum. -/
def argmaxAux : List ℚ → ℕ → ℕ × ℚ → ℕ × ℚ
  | [], _, best => best
  | v :: t, i, best => argmaxAux t (i + 1) (if best.2 < v then (i, v) else best)

def argmaxIdx : List ℚ → ℕ
  | [] => 0
  | x :: t => (argmaxAux t 1 (0, x)).1

/-- `np.mean(inclusion_trace, 0)`: the per-predictor mean of the boolean
inclusion rows. -/
def incMean {P : ℕ} (l : List (Fin P → Bool)) : Fin P → ℚ :=
  fun p => ((l.map (fun v => if v p then (1 : ℚ) else 0)).sum) / (l.length : ℚ)

/-- The detailed return value of `run_mcmc` (`probit.py` lines 292-300). -/
structure DetailedResult (P : ℕ) where
  inclusionMean : Fin P → ℚ
  inclusionMap : Fin P → Bool
  gamma0T : List ℚ
  lambdaT : List ℚ
  nuT : List ℚ
  xiT : List ℚ
  jointT : List ℚ
  likeT : List ℚ

def Probit.run_mcmc_detailed {N P : ℕ} (o : Oracles N P)
    (draws : ℕ → Draws N P) (st : ProbitState N P) (iters burn_in : ℕ) :
    Except Unit (DetailedResult P) :=
  (Probit.run_mcmc o draws st iters burn_in).map (fun r =>
    let recs := r.1
    let js := recs.map (fun s => s.joint)
    { inclusionMean := incMean (recs.map (fun s => s.inc))
      inclusionMap := (recs.map (fun s => s.inc)).getD (argmaxIdx js) (fun _ => false)
      gamma0T := recs.map (fun s => s.g0)
      lambdaT := recs.map (fun s => s.lam)
      nuT := recs.map (fun s => s.nuv)
      xiT := recs.map (fun s => s.xiv)
      jointT := js
      likeT := recs.map (fun s => s.like) })

/-! ### Cache validity

A cache is valid when every stored entry whose key is the key of some
argument tuple holds exactly the distribution `probit.py` constructs for
that tuple.  Both caches start empty and are only ever filled by the
`cachedmethod` wrappers, so validity is an invariant of every reachable
state; the theorems below carry it as an explicit hypothesis. -/

def ProbitCacheOK {N P : ℕ} (st : ProbitState N P) : Prop :=
  ∀ p ∈ st.probitCache.items, ∀ x : ℚ,
    p.1 = probitKey st.selfOid x → p.2 = probitCov st.Rcov x

def PpiCacheOK {N P : ℕ} (st : ProbitState N P) : Prop :=
  ∀ p ∈ st.ppiCache.items, ∀ (g : Fin P → ℚ) (g0 lamb : ℚ),
    p.1 = ppiKey st.selfOid ⟨0, g⟩ g0 lamb → p.2 = ppiCov st.X g g0 lamb

/-- The model-state invariant (spec §3): `0 < xi < 1`, `nu > 0`,
`lambda > 0`.  The remaining clause of the spec's invariant — `gamma` has
exactly `P` entries matching `X`'s column count — is carried by the type
`Fin P → ℚ` of the `gamma` field. -/
def Probit.Invariant {N P : ℕ} (st : ProbitState N P) : Prop :=
  0 < st.xi ∧ st.xi < 1 ∧ 0 < st.nu ∧ 0 < st.lamb

/-- The whitened latent value computed at the top of `update_xi`
(`probit.py` line 427); definitionally the value `update_xi` uses. -/
def Probit.xiWhitened {N P : ℕ} (o : Oracles N P) (st : ProbitState N P) :
    Fin P → ℚ :=
  let r0 := Probit.probit_distribution st st.xi
  o.whiten r0.1 r0.2.1.gamma

/-- The `xi` value the slice sampler returns inside one `update_xi` call
(`probit.py` line 440); definitionally the value `update_xi` assigns. -/
def Probit.xiProposal {N P : ℕ} (o : Oracles N P) (d : Draws N P)
    (st : ProbitState N P) : ℚ :=
  let r0 := Probit.probit_distribution st st.xi
  d.sliceXi (Probit.xiSliceFn o r0.2.1 (Probit.xiWhitened o st)) r0.2.1.xi

/-- `n` bare iterations of the `run_mcmc` loop body (`k` the iteration
counter feeding the per-sweep draws), without the trace bookkeeping:
used to state that `run_mcmc` performs exactly `burn_in + iters`
`update_parameters` sweeps. -/
def Probit.sweepIter {N P : ℕ} (o : Oracles N P) (draws : ℕ → Draws N P) :
    (n : ℕ) → ℕ → ProbitState N P → Except Unit (ProbitState N P)
  | 0, _, st => .ok st
  | r + 1, k, st =>
    let j := Probit.log_joint o st
    let l := Probit.log_marg_like o j.2 ⟨0, j.2.gamma⟩ j.2.gamma0 j.2.lamb j.2.nu
    match Probit.update_parameters o (draws k) l.2 with
    | .error e => .error e
    | .ok st' => Probit.sweepIter o draws r (k + 1) st'

/-! ### Concrete instantiations used by the witnesses -/

def oracles0 (N P : ℕ) : Oracles N P where
  mvnCovP := fun R _ _ => R
  lpdfN := fun _ _ _ => 0
  mahaN := fun _ y => y ⬝ᵥ y
  lpdfP := fun _ _ => 0
  whiten := fun _ y => y
  correlate := fun _ y => some y
  normPpf := fun q => q
  normLpdf := fun _ _ => 0
  gammaLpdf := fun _ _ => 0
  betaLpdf := fun _ _ => 0

def draws0 (N P : ℕ) : Draws N P where
  essOne := fun _ _ x0 => x0
  sliceG0 := fun _ x0 => x0
  sliceLam := fun _ x0 => x0
  sliceXi := fun _ x0 => x0
  gammaVariate := fun _ _ => 1

/-- A concrete 1-sample, 1-predictor model built with the default
constructor arguments. -/
def state1 : ProbitState 1 1 :=
  Probit.initDefault (oracles0 1 1) (fun _ _ => 0) 1 (fun _ => 0) 1 0

/-- A concrete run against the cache model, capacity 4: four distinct
keys fill the cache, key 1 is then looked up again (a hit — afterwards
key 1 is the most recently used and key 2 the least recently used entry),
and inserting the fresh key 5 forces an eviction. -/
def cacheDemo : CtCache ℕ ℕ :=
  let c1 := (cachedCall (⟨4, []⟩ : CtCache ℕ ℕ) 1 (fun _ => 11)).2.1
  let c2 := (cachedCall c1 2 (fun _ => 12)).2.1
  let c3 := (cachedCall c2 3 (fun _ => 13)).2.1
  let c4 := (cachedCall c3 4 (fun _ => 14)).2.1
  let c5 := (cachedCall c4 1 (fun _ => 11)).2.1
  (cachedCall c5 5 (fun _ => 15)).2.1

/-! ### Helper lemmas -/

theorem find_overwrite (l : List (κ × α)) (k : κ) (v : α)
    (h : (l.find? (fun p => p.1 = k)).isSome) :
    ((l.map (fun p => if p.1 = k then (p.1, v) else p)).find?
      (fun p => p.1 = k)).map (fun p => p.2) = some v := by
  induction l with
  | nil => simp [List.find?] at h
  | cons p t ih =>
    by_cases hp : p.1 = k
    · simp [List.find?, hp]
    · have h' : (t.find? (fun p => p.1 = k)).isSome := by
        simpa [List.find?, hp] using h
      simpa [List.find?, hp] using ih h'

theorem find_append_fresh (l : List (κ × α)) (k : κ) (v : α)
    (h : ∀ p ∈ l, ¬(p.1 = k)) :
    ((l ++ [(k, v)]).find? (fun p => p.1 = k)).map (fun p => p.2) = some v := by
  induction l with
  | nil => simp [List.find?]
  | cons p t ih =>
    have hpk : ¬(p.1 = k) := h p (by simp)
    simpa [List.find?, hpk] using ih (fun q hq => h q (by simp [hq]))

theorem CtCache.lookup_set_self (c : CtCache κ α) (k : κ) (v : α) :
    (c.set k v).lookup k = some v := by
  unfold CtCache.set CtCache.lookup
  by_cases h : (c.items.find? (fun p => p.1 = k)).isSome
  · simpa [h] using find_overwrite c.items k v h
  · have hnone : c.items.find? (fun p => p.1 = k) = none := by
      cases hf : c.items.find? (fun p => p.1 = k) with
      | none => rfl
      | some p => rw [hf] at h; simp at h
    have hnotmem : ∀ p ∈ c.items.drop (c.items.length + 1 - c.maxsize), ¬(p.1 = k) := by
      intro p hp hk
      have hmem : p ∈ c.items := List.mem_of_mem_drop hp
      have := List.find?_eq_none.1 hnone p hmem
      simp [hk] at this
    simpa [h] using
      find_append_fresh (c.items.drop (c.items.length + 1 - c.maxsize)) k v hnotmem

theorem cachedCall_lookup (c : CtCache κ α) (k : κ) (compute : Unit → α) :
    (cachedCall c k compute).2.1.lookup k = some (cachedCall c k compute).1 := by
  unfold cachedCall
  cases hl : c.lookup k with
  | some v => simp [hl]
  | none => simpa [hl] using CtCache.lookup_set_self c k (compute ())

theorem cachedCall_hit (c : CtCache κ α) (k : κ) (v : α) (compute : Unit → α)
    (hl : c.lookup k = some v) :
    cachedCall c k compute = (v, c, false) := by
  unfold cachedCall; rw [hl]

theorem dotProduct_self_nonneg {m : Type} [Fintype m] (x : m → ℚ) :
    0 ≤ x ⬝ᵥ x := by
  refine Finset.sum_nonneg (fun i _ => ?_)
  exact mul_self_nonneg (x i)

theorem CtCache.lookup_mem {c : CtCache κ α} {k : κ} {v : α}
    (h : c.lookup k = some v) : ∃ p ∈ c.items, p.1 = k ∧ p.2 = v := by
  unfold CtCache.lookup at h
  cases hf : c.items.find? (fun p => p.1 = k) with
  | none => rw [hf] at h; simp at h
  | some p =>
    rw [hf] at h
    refine ⟨p, List.mem_of_find?_eq_some hf, ?_, ?_⟩
    · have := List.find?_some hf
      simpa using this
    · simpa using h

theorem CtCache.mem_set {c : CtCache κ α} {k : κ} {v : α} {p : κ × α}
    (h : p ∈ (c.set k v).items) : p ∈ c.items ∨ p = (k, v) := by
  unfold CtCache.set at h
  by_cases hc : (c.items.find? (fun q => q.1 = k)).isSome
  · simp only [hc, if_true] at h
    rcases List.mem_map.1 h with ⟨q, hq, hqe⟩
    by_cases hqk : q.1 = k
    · right
      rw [← hqe]
      simp [hqk]
    · left
      rw [← hqe]
      simpa [hqk] using hq
  · simp only [hc, if_false] at h
    rcases List.mem_append.1 h with h | h
    · exact Or.inl (List.mem_of_mem_drop h)
    · right
      simpa using h

theorem ofFn_inj {P : ℕ} {f g : Fin P → ℚ} (h : List.ofFn f = List.ofFn g) :
    f = g := by
  funext i
  have := congrArg (fun l => l.get?) h
  have h2 : (List.ofFn f).get? i = (List.ofFn g).get? i := by rw [h]
  rw [List.get?_ofFn, List.get?_ofFn] at h2
  simpa [List.ofFnNthVal, i.isLt] using h2

theorem ppiKey_inj {P : ℕ} {oid oid' : ℕ} {g g' : NdVec P} {g0 g0' l l' : ℚ}
    (h : ppiKey oid g g0 l = ppiKey oid' g' g0' l') :
    oid = oid' ∧ g.data = g'.data ∧ g0 = g0' ∧ l = l' := by
  unfold ppiKey cache_key at h
  simp only [List.map, List.cons.injEq, PyKeyAtom.objid.injEq, PyKeyAtom.bytes.injEq,
    PyKeyAtom.num.injEq, and_true] at h
  exact ⟨h.1, ofFn_inj h.2.1, h.2.2.1, h.2.2.2⟩

theorem probitKey_inj {oid oid' : ℕ} {x x' : ℚ}
    (h : probitKey oid x = probitKey oid' x') : oid = oid' ∧ x = x' := by
  unfold probitKey cache_key at h
  simp only [List.map, List.cons.injEq, PyKeyAtom.objid.injEq, PyKeyAtom.num.injEq,
    and_true] at h
  exact ⟨h.1, h.2⟩

/-- A valid ppi cache is transparent: `ppi_distribution` returns exactly
the covariance built directly from its arguments. -/
theorem ppi_distribution_val {N P : ℕ} (st : ProbitState N P) (g : NdVec P)
    (g0 lamb : ℚ) (hok : PpiCacheOK st) :
    (Probit.ppi_distribution st g g0 lamb).1 = ppiCov st.X g.data g0 lamb := by
  unfold Probit.ppi_distribution cachedCall
  cases hl : st.ppiCache.lookup (ppiKey st.selfOid g g0 lamb) with
  | none => simp [hl]
  | some v =>
    simp only [hl]
    rcases CtCache.lookup_mem hl with ⟨p, hmem, hkey, hval⟩
    have hkey0 : p.1 = ppiKey st.selfOid (⟨0, g.data⟩ : NdVec P) g0 lamb := hkey
    rw [← hval]
    exact hok p hmem g.data g0 lamb hkey0

/-- A valid probit cache is transparent. -/
theorem probit_distribution_val {N P : ℕ} (st : ProbitState N P) (x : ℚ)
    (hok : ProbitCacheOK st) :
    (Probit.probit_distribution st x).1 = probitCov st.Rcov x := by
  unfold Probit.probit_distribution cachedCall
  cases hl : st.probitCache.lookup (probitKey st.selfOid x) with
  | none => simp [hl]
  | some v =>
    simp only [hl]
    rcases CtCache.lookup_mem hl with ⟨p, hmem, hkey, hval⟩
    rw [← hval]
    exact hok p hmem x hkey

theorem ppi_distribution_cacheOK {N P : ℕ} (st : ProbitState N P)
    (g : NdVec P) (g0 lamb : ℚ) (hok : PpiCacheOK st) :
    PpiCacheOK (Probit.ppi_distribution st g g0 lamb).2.1 := by
  unfold Probit.ppi_distribution cachedCall
  cases hl : st.ppiCache.lookup (ppiKey st.selfOid g g0 lamb) with
  | none =>
    simp only [hl]
    intro p hp g' g0' l' hkey
    rcases CtCache.mem_set hp with h | h
    · exact hok p h g' g0' l' hkey
    · rw [h] at hkey ⊢
      simp only at hkey ⊢
      rcases ppiKey_inj hkey with ⟨_, hg, hg0, hlam⟩
      simp only at hg
      rw [← hg, ← hg0, ← hlam]
  | some v =>
    simp only [hl]
    exact hok

theorem probit_distribution_cacheOK {N P : ℕ} (st : ProbitState N P) (x : ℚ)
    (hok : ProbitCacheOK st) :
    ProbitCacheOK (Probit.probit_distribution st x).2.1 := by
  unfold Probit.probit_distribution cachedCall
  cases hl : st.probitCache.lookup (probitKey st.selfOid x) with
  | none =>
    simp only [hl]
    intro p hp x' hkey
    rcases CtCache.mem_set hp with h | h
    · exact hok p h x' hkey
    · rw [h] at hkey ⊢
      simp only at hkey ⊢
      rcases probitKey_inj hkey with ⟨_, hx⟩
      rw [← hx]
  | some v =>
    simp only [hl]
    exact hok

/-! ### Field stability of the update operators

Each update mutates only its own parameter (and the cache its direct
distribution call threads); every other field of the state is unchanged.
All of these are definitional. -/

@[simp] theorem update_gamma_sample_xi {N P : ℕ} (o : Oracles N P) (d : Draws N P) (st : ProbitState N P) :
    (Probit.update_gamma o d st).sample_xi = st.sample_xi := rfl

@[simp] theorem update_gamma_xi {N P : ℕ} (o : Oracles N P) (d : Draws N P) (st : ProbitState N P) :
    (Probit.update_gamma o d st).xi = st.xi := rfl

@[simp] theorem update_gamma_gamma0 {N P : ℕ} (o : Oracles N P) (d : Draws N P) (st : ProbitState N P) :
    (Probit.update_gamma o d st).gamma0 = st.gamma0 := rfl

@[simp] theorem update_gamma_lamb {N P : ℕ} (o : Oracles N P) (d : Draws N P) (st : ProbitState N P) :
    (Probit.update_gamma o d st).lamb = st.lamb := rfl

@[simp] theorem update_gamma_nu {N P : ℕ} (o : Oracles N P) (d : Draws N P) (st : ProbitState N P) :
    (Probit.update_gamma o d st).nu = st.nu := rfl

@[simp] theorem update_gamma_nu_a {N P : ℕ} (o : Oracles N P) (d : Draws N P) (st : ProbitState N P) :
    (Probit.update_gamma o d st).nu_a = st.nu_a := rfl

@[simp] theorem update_gamma_nu_b {N P : ℕ} (o : Oracles N P) (d : Draws N P) (st : ProbitState N P) :
    (Probit.update_gamma o d st).nu_b = st.nu_b := rfl

@[simp] theorem update_gamma_X {N P : ℕ} (o : Oracles N P) (d : Draws N P) (st : ProbitState N P) :
    (Probit.update_gamma o d st).X = st.X := rfl

@[simp] theorem update_gamma_Y {N P : ℕ} (o : Oracles N P) (d : Draws N P) (st : ProbitState N P) :
    (Probit.update_gamma o d st).Y = st.Y := rfl

@[simp] theorem update_gamma_Rcov {N P : ℕ} (o : Oracles N P) (d : Draws N P) (st : ProbitState N P) :
    (Probit.update_gamma o d st).Rcov = st.Rcov := rfl

@[simp] theorem update_gamma_selfOid {N P : ℕ} (o : Oracles N P) (d : Draws N P) (st : ProbitState N P) :
    (Probit.update_gamma o d st).selfOid = st.selfOid := rfl

@[simp] theorem update_gamma_xiDist {N P : ℕ} (o : Oracles N P) (d : Draws N P) (st : ProbitState N P) :
    (Probit.update_gamma o d st).xiDist = st.xiDist := rfl

@[simp] theorem update_gamma_gamma0Dist {N P : ℕ} (o : Oracles N P) (d : Draws N P) (st : ProbitState N P) :
    (Probit.update_gamma o d st).gamma0Dist = st.gamma0Dist := rfl

@[simp] theorem update_gamma_lambdaDist {N P : ℕ} (o : Oracles N P) (d : Draws N P) (st : ProbitState N P) :
    (Probit.update_gamma o d st).lambdaDist = st.lambdaDist := rfl

@[simp] theorem update_gamma_nuDist {N P : ℕ} (o : Oracles N P) (d : Draws N P) (st : ProbitState N P) :
    (Probit.update_gamma o d st).nuDist = st.nuDist := rfl

@[simp] theorem update_gamma_ppiCache {N P : ℕ} (o : Oracles N P) (d : Draws N P) (st : ProbitState N P) :
    (Probit.update_gamma o d st).ppiCache = st.ppiCache := rfl

@[simp] theorem update_gamma_check_finite {N P : ℕ} (o : Oracles N P) (d : Draws N P) (st : ProbitState N P) :
    (Probit.update_gamma o d st).check_finite = st.check_finite := rfl

@[simp] theorem update_gamma0_sample_xi {N P : ℕ} (o : Oracles N P) (d : Draws N P) (st : ProbitState N P) :
    (Probit.update_gamma0 o d st).sample_xi = st.sample_xi := rfl

@[simp] theorem update_gamma0_xi {N P : ℕ} (o : Oracles N P) (d : Draws N P) (st : ProbitState N P) :
    (Probit.update_gamma0 o d st).xi = st.xi := rfl

@[simp] theorem update_gamma0_lamb {N P : ℕ} (o : Oracles N P) (d : Draws N P) (st : ProbitState N P) :
    (Probit.update_gamma0 o d st).lamb = st.lamb := rfl

@[simp] theorem update_gamma0_nu {N P : ℕ} (o : Oracles N P) (d : Draws N P) (st : ProbitState N P) :
    (Probit.update_gamma0 o d st).nu = st.nu := rfl

@[simp] theorem update_gamma0_nu_a {N P : ℕ} (o : Oracles N P) (d : Draws N P) (st : ProbitState N P) :
    (Probit.update_gamma0 o d st).nu_a = st.nu_a := rfl

@[simp] theorem update_gamma0_nu_b {N P : ℕ} (o : Oracles N P) (d : Draws N P) (st : ProbitState N P) :
    (Probit.update_gamma0 o d st).nu_b = st.nu_b := rfl

@[simp] theorem update_gamma0_X {N P : ℕ} (o : Oracles N P) (d : Draws N P) (st : ProbitState N P) :
    (Probit.update_gamma0 o d st).X = st.X := rfl

@[simp] theorem update_gamma0_Y {N P : ℕ} (o : Oracles N P) (d : Draws N P) (st : ProbitState N P) :
    (Probit.update_gamma0 o d st).Y = st.Y := rfl

@[simp] theorem update_gamma0_Rcov {N P : ℕ} (o : Oracles N P) (d : Draws N P) (st : ProbitState N P) :
    (Probit.update_gamma0 o d st).Rcov = st.Rcov := rfl

@[simp] theorem update_gamma0_selfOid {N P : ℕ} (o : Oracles N P) (d : Draws N P) (st : ProbitState N P) :
    (Probit.update_gamma0 o d st).selfOid = st.selfOid := rfl

@[simp] theorem update_gamma0_xiDist {N P : ℕ} (o : Oracles N P) (d : Draws N P) (st : ProbitState N P) :
    (Probit.update_gamma0 o d st).xiDist = st.xiDist := rfl

@[simp] theorem update_gamma0_gamma0Dist {N P : ℕ} (o : Oracles N P) (d : Draws N P) (st : ProbitState N P) :
    (Probit.update_gamma0 o d st).gamma0Dist = st.gamma0Dist := rfl

@[simp] theorem update_gamma0_lambdaDist {N P : ℕ} (o : Oracles N P) (d : Draws N P) (st : ProbitState N P) :
    (Probit.update_gamma0 o d st).lambdaDist = st.lambdaDist := rfl

@[simp] theorem update_gamma0_nuDist {N P : ℕ} (o : Oracles N P) (d : Draws N P) (st : ProbitState N P) :
    (Probit.update_gamma0 o d st).nuDist = st.nuDist := rfl

@[simp] theorem update_gamma0_gamma {N P : ℕ} (o : Oracles N P) (d : Draws N P) (st : ProbitState N P) :
    (Probit.update_gamma0 o d st).gamma = st.gamma := rfl

@[simp] theorem update_gamma0_probitCache {N P : ℕ} (o : Oracles N P) (d : Draws N P) (st : ProbitState N P) :
    (Probit.update_gamma0 o d st).probitCache = st.probitCache := rfl

@[simp] theorem update_gamma0_ppiCache {N P : ℕ} (o : Oracles N P) (d : Draws N P) (st : ProbitState N P) :
    (Probit.update_gamma0 o d st).ppiCache = st.ppiCache := rfl

@[simp] theorem update_gamma0_check_finite {N P : ℕ} (o : Oracles N P) (d : Draws N P) (st : ProbitState N P) :
    (Probit.update_gamma0 o d st).check_finite = st.check_finite := rfl

@[simp] theorem update_lambda_sample_xi {N P : ℕ} (o : Oracles N P) (d : Draws N P) (st : ProbitState N P) :
    (Probit.update_lambda o d st).sample_xi = st.sample_xi := rfl

@[simp] theorem update_lambda_xi {N P : ℕ} (o : Oracles N P) (d : Draws N P) (st : ProbitState N P) :
    (Probit.update_lambda o d st).xi = st.xi := rfl

@[simp] theorem update_lambda_gamma0 {N P : ℕ} (o : Oracles N P) (d : Draws N P) (st : ProbitState N P) :
    (Probit.update_lambda o d st).gamma0 = st.gamma0 := rfl

@[simp] theorem update_lambda_nu {N P : ℕ} (o : Oracles N P) (d : Draws N P) (st : ProbitState N P) :
    (Probit.update_lambda o d st).nu = st.nu := rfl

@[simp] theorem update_lambda_nu_a {N P : ℕ} (o : Oracles N P) (d : Draws N P) (st : ProbitState N P) :
    (Probit.update_lambda o d st).nu_a = st.nu_a := rfl

@[simp] theorem update_lambda_nu_b {N P : ℕ} (o : Oracles N P) (d : Draws N P) (st : ProbitState N P) :
    (Probit.update_lambda o d st).nu_b = st.nu_b := rfl

@[simp] theorem update_lambda_X {N P : ℕ} (o : Oracles N P) (d : Draws N P) (st : ProbitState N P) :
    (Probit.update_lambda o d st).X = st.X := rfl

@[simp] theorem update_lambda_Y {N P : ℕ} (o : Oracles N P) (d : Draws N P) (st : ProbitState N P) :
    (Probit.update_lambda o d st).Y = st.Y := rfl

@[simp] theorem update_lambda_Rcov {N P : ℕ} (o : Oracles N P) (d : Draws N P) (st : ProbitState N P) :
    (Probit.update_lambda o d st).Rcov = st.Rcov := rfl

@[simp] theorem update_lambda_selfOid {N P : ℕ} (o : Oracles N P) (d : Draws N P) (st : ProbitState N P) :
    (Probit.update_lambda o d st).selfOid = st.selfOid := rfl

@[simp] theorem update_lambda_xiDist {N P : ℕ} (o : Oracles N P) (d : Draws N P) (st : ProbitState N P) :
    (Probit.update_lambda o d st).xiDist = st.xiDist := rfl

@[simp] theorem update_lambda_gamma0Dist {N P : ℕ} (o : Oracles N P) (d : Draws N P) (st : ProbitState N P) :
    (Probit.update_lambda o d st).gamma0Dist = st.gamma0Dist := rfl

@[simp] theorem update_lambda_lambdaDist {N P : ℕ} (o : Oracles N P) (d : Draws N P) (st : ProbitState N P) :
    (Probit.update_lambda o d st).lambdaDist = st.lambdaDist := rfl

@[simp] theorem update_lambda_nuDist {N P : ℕ} (o : Oracles N P) (d : Draws N P) (st : ProbitState N P) :
    (Probit.update_lambda o d st).nuDist = st.nuDist := rfl

@[simp] theorem update_lambda_gamma {N P : ℕ} (o : Oracles N P) (d : Draws N P) (st : ProbitState N P) :
    (Probit.update_lambda o d st).gamma = st.gamma := rfl

@[simp] theorem update_lambda_probitCache {N P : ℕ} (o : Oracles N P) (d : Draws N P) (st : ProbitState N P) :
    (Probit.update_lambda o d st).probitCache = st.probitCache := rfl

@[simp] theorem update_lambda_ppiCache {N P : ℕ} (o : Oracles N P) (d : Draws N P) (st : ProbitState N P) :
    (Probit.update_lambda o d st).ppiCache = st.ppiCache := rfl

@[simp] theorem update_lambda_check_finite {N P : ℕ} (o : Oracles N P) (d : Draws N P) (st : ProbitState N P) :
    (Probit.update_lambda o d st).check_finite = st.check_finite := rfl

@[simp] theorem update_nu_sample_xi {N P : ℕ} (o : Oracles N P) (d : Draws N P) (st : ProbitState N P) :
    (Probit.update_nu o d st).sample_xi = st.sample_xi := rfl

@[simp] theorem update_nu_xi {N P : ℕ} (o : Oracles N P) (d : Draws N P) (st : ProbitState N P) :
    (Probit.update_nu o d st).xi = st.xi := rfl

@[simp] theorem update_nu_gamma0 {N P : ℕ} (o : Oracles N P) (d : Draws N P) (st : ProbitState N P) :
    (Probit.update_nu o d st).gamma0 = st.gamma0 := rfl

@[simp] theorem update_nu_lamb {N P : ℕ} (o : Oracles N P) (d : Draws N P) (st : ProbitState N P) :
    (Probit.update_nu o d st).lamb = st.lamb := rfl

@[simp] theorem update_nu_nu_a {N P : ℕ} (o : Oracles N P) (d : Draws N P) (st : ProbitState N P) :
    (Probit.update_nu o d st).nu_a = st.nu_a := rfl

@[simp] theorem update_nu_nu_b {N P : ℕ} (o : Oracles N P) (d : Draws N P) (st : ProbitState N P) :
    (Probit.update_nu o d st).nu_b = st.nu_b := rfl

@[simp] theorem update_nu_X {N P : ℕ} (o : Oracles N P) (d : Draws N P) (st : ProbitState N P) :
    (Probit.update_nu o d st).X = st.X := rfl

@[simp] theorem update_nu_Y {N P : ℕ} (o : Oracles N P) (d : Draws N P) (st : ProbitState N P) :
    (Probit.update_nu o d st).Y = st.Y := rfl

@[simp] theorem update_nu_Rcov {N P : ℕ} (o : Oracles N P) (d : Draws N P) (st : ProbitState N P) :
    (Probit.update_nu o d st).Rcov = st.Rcov := rfl

@[simp] theorem update_nu_selfOid {N P : ℕ} (o : Oracles N P) (d : Draws N P) (st : ProbitState N P) :
    (Probit.update_nu o d st).selfOid = st.selfOid := rfl

@[simp] theorem update_nu_xiDist {N P : ℕ} (o : Oracles N P) (d : Draws N P) (st : ProbitState N P) :
    (Probit.update_nu o d st).xiDist = st.xiDist := rfl

@[simp] theorem update_nu_gamma0Dist {N P : ℕ} (o : Oracles N P) (d : Draws N P) (st : ProbitState N P) :
    (Probit.update_nu o d st).gamma0Dist = st.gamma0Dist := rfl

@[simp] theorem update_nu_lambdaDist {N P : ℕ} (o : Oracles N P) (d : Draws N P) (st : ProbitState N P) :
    (Probit.update_nu o d st).lambdaDist = st.lambdaDist := rfl

@[simp] theorem update_nu_nuDist {N P : ℕ} (o : Oracles N P) (d : Draws N P) (st : ProbitState N P) :
    (Probit.update_nu o d st).nuDist = st.nuDist := rfl

@[simp] theorem update_nu_gamma {N P : ℕ} (o : Oracles N P) (d : Draws N P) (st : ProbitState N P) :
    (Probit.update_nu o d st).gamma = st.gamma := rfl

@[simp] theorem update_nu_probitCache {N P : ℕ} (o : Oracles N P) (d : Draws N P) (st : ProbitState N P) :
    (Probit.update_nu o d st).probitCache = st.probitCache := rfl

@[simp] theorem update_nu_check_finite {N P : ℕ} (o : Oracles N P) (d : Draws N P) (st : ProbitState N P) :
    (Probit.update_nu o d st).check_finite = st.check_finite := rfl

/-! ### Claim theorems -/

/-- C3: the constructor builds `gamma0`'s prior as
`norm(loc=norm.ppf(1 - target_sparsity), scale=gamma0_v)` and initializes
`gamma0` to the prior mean.  The mean and initialization clauses of the
claim hold, but `scipy.stats.norm`'s `scale` is the standard deviation,
so the prior variance is `gamma0_v ** 2`, not `gamma0_v` (the code's own
docstring calls `gamma0_v` the variance): at `gamma0_v = 4` the
constructed prior has variance `16`, not `4`. -/
theorem C3_gamma0_prior_scale_bug :
    (∀ {N P : ℕ} (o : Oracles N P) (rvs : Matrix (Fin P) (Fin P) ℚ → Fin P → ℚ)
        (X : Matrix (Fin N) (Fin P) ℚ) (Y : Fin N → ℚ)
        (R : Matrix (Fin P) (Fin P) ℚ) (ts gv : ℚ) (lp nup : ℚ × ℚ)
        (xa : Option ℚ) (xs : ℚ × ℚ) (cf : Bool) (me jit : ℚ) (so : ℕ),
        (Probit.init o rvs X Y R ts gv lp nup xa xs cf me jit so).gamma0Dist
          = ⟨o.normPpf (1 - ts), gv⟩
        ∧ (Probit.init o rvs X Y R ts gv lp nup xa xs cf me jit so).gamma0
          = o.normPpf (1 - ts)
        ∧ (Probit.init o rvs X Y R ts gv lp nup xa xs cf me jit so).gamma0Dist.variance
          = gv ^ 2)
    ∧ (Probit.init (oracles0 1 1) (fun _ _ => 0) 1 (fun _ => 0) 1 (1/100) 4
        (1/1000000, 1/1000000) (1/1000000, 1/1000000) (some (999999/1000000))
        (1, 1) true 0 (1/1000000) 0).gamma0Dist.variance = 16
    ∧ (16 : ℚ) ≠ 4 := by
  refine ⟨?_, ?_, by norm_num⟩
  · intro N P o rvs X Y R ts gv lp nup xa xs cf me jit so
    exact ⟨rfl, rfl, rfl⟩
  · show ((4 : ℚ) ^ 2 : ℚ) = 16
    norm_num

/-- C4 counterexample: at the concrete candidate `lambda = 0` the
closure used by `update_lambda` does not return `-np.inf`: the `lamb < 0`
guard does not fire, the closure proceeds to evaluate
`log_marg_like(..., 0, ...)`, and the division of the covariance by zero
makes the `Mvn` construction fail (modelled `Except.error`) — refuting
the claim that every non-positive candidate yields `-∞` without
raising. -/
theorem C4_zero_lambda_counterexample :
    Probit.lambdaSliceFn (oracles0 1 1) state1 0 = .error ()
    ∧ Probit.lambdaSliceFn (oracles0 1 1) state1 0 ≠ .ok ⊥ :=
  ⟨rfl, fun h => Except.noConfusion (rfl.trans h)⟩

/-- C4 amended: the candidate log-density closure used by
`update_lambda` returns negative infinity for every strictly negative
candidate (`lamb < 0`, not `lamb ≤ 0`), and for every positive candidate
returns `log_marg_like(gamma, gamma0, lamb, nu)` plus `lambda`'s
gamma-prior log-density; at `lamb = 0` it instead attempts the full
evaluation, which fails. -/
theorem C4_lambda_slice_amended :
    ∀ {N P : ℕ} (o : Oracles N P) (st : ProbitState N P) (lamb : ℚ),
      (lamb < 0 → Probit.lambdaSliceFn o st lamb = .ok ⊥)
      ∧ (0 < lamb → Probit.lambdaSliceFn o st lamb
          = .ok ((Probit.logMargLikePure o st st.gamma st.gamma0 lamb st.nu
              + o.gammaLpdf st.lambdaDist lamb : ℚ) : WithBot ℚ)) := by
  intro N P o st lamb
  constructor
  · intro h
    unfold Probit.lambdaSliceFn
    rw [if_pos h]
  · intro h
    unfold Probit.lambdaSliceFn
    rw [if_neg (not_lt.2 (le_of_lt h)), if_neg (ne_of_gt h)]

theorem C4_lambda_slice_amended_witness :
    Probit.lambdaSliceFn (oracles0 1 1) state1 (-1) = .ok ⊥
    ∧ Probit.lambdaSliceFn (oracles0 1 1) state1 1
      = .ok ((Probit.logMargLikePure (oracles0 1 1) state1 state1.gamma
          state1.gamma0 1 state1.nu
          + (oracles0 1 1).gammaLpdf state1.lambdaDist 1 : ℚ) : WithBot ℚ) :=
  ⟨(C4_lambda_slice_amended (oracles0 1 1) state1 (-1)).1 (by norm_num),
   (C4_lambda_slice_amended (oracles0 1 1) state1 1).2 (by norm_num)⟩

/-- C5 counterexample: on the capacity-4 cache model, after filling with
keys 1..4 and then *using* key 1 again (a hit), inserting the fresh key 5
evicts key 1 — the most recently used entry — while key 2 — the least
recently used — survives.  Under least-recently-used eviction key 2
would have been evicted and key 1 retained, so the claimed eviction
policy is refuted: `cachetools.Cache` evicts in insertion order. -/
theorem C5_eviction_not_lru :
    cacheDemo.maxsize = 4
    ∧ cacheDemo.lookup 1 = none
    ∧ cacheDemo.lookup 2 = some 12
    ∧ cacheDemo.lookup 5 = some 15 := by
  refine ⟨rfl, by decide, by decide, by decide⟩

/-- C5 amended: the probit-distribution cache has capacity 4 and the
PPI-distribution cache capacity 8; once a cache is full, inserting a
fresh key evicts the earliest-inserted entry (insertion-order/FIFO
eviction — `cachetools.Cache`, not `LRUCache`), and a lookup hit returns
the stored value without reordering or modifying the cache. -/
theorem C5_capacity_and_fifo_eviction :
    (∀ {N P : ℕ} (o : Oracles N P) (rvs : Matrix (Fin P) (Fin P) ℚ → Fin P → ℚ)
        (X : Matrix (Fin N) (Fin P) ℚ) (Y : Fin N → ℚ)
        (R : Matrix (Fin P) (Fin P) ℚ) (ts gv : ℚ) (lp nup : ℚ × ℚ)
        (xa : Option ℚ) (xs : ℚ × ℚ) (cf : Bool) (me jit : ℚ) (so : ℕ),
        (Probit.init o rvs X Y R ts gv lp nup xa xs cf me jit so).probitCache.maxsize = 4
        ∧ (Probit.init o rvs X Y R ts gv lp nup xa xs cf me jit so).ppiCache.maxsize = 8)
    ∧ (∀ (κ' α' : Type) [DecidableEq κ'] (c : CtCache κ' α') (k : κ') (v : α'),
        c.items.length = c.maxsize → c.lookup k = none →
          (c.set k v).items = c.items.tail ++ [(k, v)])
    ∧ (∀ (κ' α' : Type) [DecidableEq κ'] (c : CtCache κ' α') (k : κ') (v : α')
        (compute : Unit → α'),
        c.lookup k = some v → cachedCall c k compute = (v, c, false)) := by
  refine ⟨?_, ?_, ?_⟩
  · intro N P o rvs X Y R ts gv lp nup xa xs cf me jit so
    exact ⟨rfl, rfl⟩
  · intro κ' α' inst c k v hlen hnone
    have hfind : c.items.find? (fun p => p.1 = k) = none := by
      unfold CtCache.lookup at hnone
      cases hf : c.items.find? (fun p => p.1 = k) with
      | none => rfl
      | some p => rw [hf] at hnone; simp at hnone
    unfold CtCache.set
    rw [hfind]
    simp only [Option.isSome_none, Bool.false_eq_true, if_false]
    rw [hlen]
    have h1 : c.maxsize + 1 - c.maxsize = 1 := by omega
    rw [h1, List.drop_one]
  · intro κ' α' inst c k v compute h
    exact cachedCall_hit c k v compute h

theorem C5_capacity_and_fifo_eviction_witness :
    ((⟨2, [(1, 11), (2, 12)]⟩ : CtCache ℕ ℕ).set 3 13).items = [(2, 12), (3, 13)]
    ∧ cachedCall (⟨2, [(1, 11), (2, 12)]⟩ : CtCache ℕ ℕ) 2 (fun _ => 99)
      = (12, ⟨2, [(1, 11), (2, 12)]⟩, false) :=
  ⟨C5_capacity_and_fifo_eviction.2.1 ℕ ℕ ⟨2, [(1, 11), (2, 12)]⟩ 3 13 rfl (by decide),
   C5_capacity_and_fifo_eviction.2.2 ℕ ℕ ⟨2, [(1, 11), (2, 12)]⟩ 2 12 (fun _ => 99)
     (by decide)⟩

/-- C10: with the default constructor arguments `xi` is fixed at
`0.999999` and never sampled — `sample_xi` is false and
`update_parameters` skips `update_xi` (the sweep is exactly the four
updates `gamma, gamma0, lambda, nu`, and `xi` is left unchanged); passing
any explicit `xi` value disables sampling, while passing `xi=None`
enables it and initializes `xi` to the beta-prior mean
`a / (a + b)`. -/
theorem C10_xi_fixed_by_default :
    (∀ {N P : ℕ} (o : Oracles N P) (rvs : Matrix (Fin P) (Fin P) ℚ → Fin P → ℚ)
        (X : Matrix (Fin N) (Fin P) ℚ) (Y : Fin N → ℚ)
        (R : Matrix (Fin P) (Fin P) ℚ) (so : ℕ),
        (Probit.initDefault o rvs X Y R so).sample_xi = false
        ∧ (Probit.initDefault o rvs X Y R so).xi = 999999/1000000)
    ∧ (∀ {N P : ℕ} (o : Oracles N P) (rvs : Matrix (Fin P) (Fin P) ℚ → Fin P → ℚ)
        (X : Matrix (Fin N) (Fin P) ℚ) (Y : Fin N → ℚ)
        (R : Matrix (Fin P) (Fin P) ℚ) (ts gv : ℚ) (lp nup : ℚ × ℚ) (x : ℚ)
        (xs : ℚ × ℚ) (cf : Bool) (me jit : ℚ) (so : ℕ),
        (Probit.init o rvs X Y R ts gv lp nup (some x) xs cf me jit so).sample_xi = false
        ∧ (Probit.init o rvs X Y R ts gv lp nup (some x) xs cf me jit so).xi = x)
    ∧ (∀ {N P : ℕ} (o : Oracles N P) (rvs : Matrix (Fin P) (Fin P) ℚ → Fin P → ℚ)
        (X : Matrix (Fin N) (Fin P) ℚ) (Y : Fin N → ℚ)
        (R : Matrix (Fin P) (Fin P) ℚ) (ts gv : ℚ) (lp nup : ℚ × ℚ) (a b : ℚ)
        (cf : Bool) (me jit : ℚ) (so : ℕ),
        (Probit.init o rvs X Y R ts gv lp nup none (a, b) cf me jit so).sample_xi = true
        ∧ (Probit.init o rvs X Y R ts gv lp nup none (a, b) cf me jit so).xi = a / (a + b))
    ∧ (∀ {N P : ℕ} (o : Oracles N P) (d : Draws N P) (st : ProbitState N P),
        st.sample_xi = false →
          Probit.update_parameters o d st
            = .ok (Probit.update_nu o d (Probit.update_lambda o d
                (Probit.update_gamma0 o d (Probit.update_gamma o d st))))
          ∧ ∀ st', Probit.update_parameters o d st = .ok st' → st'.xi = st.xi) := by
  refine ⟨?_, ?_, ?_, ?_⟩
  · intro N P o rvs X Y R so
    exact ⟨rfl, rfl⟩
  · intro N P o rvs X Y R ts gv lp nup x xs cf me jit so
    exact ⟨rfl, rfl⟩
  · intro N P o rvs X Y R ts gv lp nup a b cf me jit so
    exact ⟨rfl, rfl⟩
  · intro N P o d st h
    have hs : (Probit.update_nu o d (Probit.update_lambda o d
        (Probit.update_gamma0 o d (Probit.update_gamma o d st)))).sample_xi
        = st.sample_xi := by simp
    have hok : Probit.update_parameters o d st
        = .ok (Probit.update_nu o d (Probit.update_lambda o d
            (Probit.update_gamma0 o d (Probit.update_gamma o d st)))) := by
      simp only [Probit.update_parameters]
      rw [hs, h]
      simp
    refine ⟨hok, ?_⟩
    intro st' h'
    rw [hok] at h'
    have h2 := Except.ok.inj h'
    rw [← h2]
    simp

theorem C10_xi_fixed_by_default_witness :
    Probit.update_parameters (oracles0 1 1) (draws0 1 1) state1
      = .ok (Probit.update_nu (oracles0 1 1) (draws0 1 1) (Probit.update_lambda (oracles0 1 1)
          (draws0 1 1) (Probit.update_gamma0 (oracles0 1 1) (draws0 1 1)
            (Probit.update_gamma (oracles0 1 1) (draws0 1 1) state1)))) :=
  (C10_xi_fixed_by_default.2.2.2 (oracles0 1 1) (draws0 1 1) state1 rfl).1

/-- C1: `update_nu` performs the exact closed-form conjugate update —
the new `nu` is the gamma variate `np.random.gamma(post_a, 1 / post_b)`
with shape `post_a = nu_a + N/2` and scale the reciprocal of the rate
`post_b = nu_b + 0.5 * maha`, where `maha` is `Mvn.maha(Y)` — the squared
Mahalanobis distance of `Y` under the PPI distribution of the current
`(gamma, gamma0, lambda)`, here the opaque oracle `mahaN` applied to the
cache-transparent constructor covariance `ppiCov` (like `logpdf`, `maha`
belongs to the missing `bss.mvn.Mvn` and is determined by the covariance
handed to the constructor).  The definition of `update_nu` invokes only
the gamma-variate primitive: neither generic sampler appears in it. -/
theorem C1_update_nu_conjugate :
    ∀ {N P : ℕ} (o : Oracles N P) (d : Draws N P) (st : ProbitState N P),
      PpiCacheOK st →
      (Probit.update_nu o d st).nu
        = d.gammaVariate (st.nu_a + (1/2 : ℚ) * (N : ℚ))
            (1 / (st.nu_b
              + (1/2 : ℚ) * o.mahaN (ppiCov st.X st.gamma st.gamma0 st.lamb) st.Y)) := by
  intro N P o d st hok
  have hval := ppi_distribution_val st ⟨0, st.gamma⟩ st.gamma0 st.lamb hok
  show d.gammaVariate (st.nu_a + (1/2 : ℚ) * (N : ℚ))
      (1 / (st.nu_b + (1/2 : ℚ)
        * o.mahaN (Probit.ppi_distribution st ⟨0, st.gamma⟩ st.gamma0 st.lamb).1 st.Y))
      = _
  rw [hval]

theorem C1_update_nu_conjugate_witness :
    PpiCacheOK state1
    ∧ (Probit.update_nu (oracles0 1 1) (draws0 1 1) state1).nu
      = (draws0 1 1).gammaVariate (state1.nu_a + (1/2 : ℚ) * ((1 : ℕ) : ℚ))
          (1 / (state1.nu_b
            + (1/2 : ℚ) * (oracles0 1 1).mahaN
                (ppiCov state1.X state1.gamma state1.gamma0 state1.lamb) state1.Y)) := by
  have hok : PpiCacheOK state1 := by
    intro p hp
    simp [state1, Probit.initDefault, Probit.init, Probit.probit_distribution,
      cachedCall, CtCache.lookup] at hp
  exact ⟨hok, C1_update_nu_conjugate (oracles0 1 1) (draws0 1 1) state1 hok⟩

/-- C2: for every `(gamma, gamma0, lambda, nu)` with `lambda` in the
code's domain (`lambda ≠ 0`; at `lambda = 0` the covariance division by
zero makes the evaluation fail rather than return a value),
`log_marg_like` equals the log-density of `Y` with precision multiplier
`nu` under the multivariate normal whose covariance is
`(X_masked · X_maskedᵀ + ones(N, N)) / lambda + I_N`, where `X_masked`
keeps exactly the columns `j` of `X` with `gamma j > gamma0` — whether
the cached PPI distribution is served from the cache or freshly
constructed; the call also preserves cache validity. -/
theorem C2_log_marg_like_formula :
    ∀ {N P : ℕ} (o : Oracles N P) (st : ProbitState N P) (g : NdVec P)
      (g0 lamb nuv : ℚ), PpiCacheOK st → lamb ≠ 0 →
      (Probit.log_marg_like o st g g0 lamb nuv).1
        = o.lpdfN (lamb⁻¹ • (maskedX st.X g.data g0 * (maskedX st.X g.data g0)ᵀ
            + onesMat N) + 1) st.Y nuv
      ∧ PpiCacheOK (Probit.log_marg_like o st g g0 lamb nuv).2 := by
  intro N P o st g g0 lamb nuv hok hl
  constructor
  · have hval := ppi_distribution_val st g g0 lamb hok
    show o.lpdfN (Probit.ppi_distribution st g g0 lamb).1 st.Y nuv = _
    rw [hval]
    rfl
  · exact ppi_distribution_cacheOK st g g0 lamb hok

theorem C2_log_marg_like_formula_witness :
    PpiCacheOK state1 ∧ (1 : ℚ) ≠ 0
    ∧ (Probit.log_marg_like (oracles0 1 1) state1 ⟨5, state1.gamma⟩ 0 1 1).1 = 0 := by
  have hok : PpiCacheOK state1 := by
    intro p hp
    simp [state1, Probit.initDefault, Probit.init, Probit.probit_distribution,
      cachedCall, CtCache.lookup] at hp
  refine ⟨hok, one_ne_zero, ?_⟩
  exact (C2_log_marg_like_formula (oracles0 1 1) state1 ⟨5, state1.gamma⟩ 0 1 1
    hok one_ne_zero).1

/-- C9: the cache key depends only on the values of the arguments —
an `ndarray` argument is keyed by its content bytes, not its object
identity — so two `ppi_distribution` calls whose `gamma` arrays are
value-equal (with arbitrary, possibly different identities) produce the
same key, and the second call is a cache hit: it returns the stored
distribution without constructing a new one and leaves the cache
unchanged.  Likewise a repeated `probit_distribution` call with the same
`xi` value is served from the cache. -/
theorem C9_cache_key_by_value :
    ∀ {N P : ℕ} (st : ProbitState N P) (g1 g2 : NdVec P) (g0 lamb x : ℚ),
      g1.data = g2.data →
      (ppiKey st.selfOid g1 g0 lamb = ppiKey st.selfOid g2 g0 lamb
        ∧ (Probit.ppi_distribution (Probit.ppi_distribution st g1 g0 lamb).2.1
            g2 g0 lamb).1 = (Probit.ppi_distribution st g1 g0 lamb).1
        ∧ (Probit.ppi_distribution (Probit.ppi_distribution st g1 g0 lamb).2.1
            g2 g0 lamb).2.2 = false
        ∧ (Probit.ppi_distribution (Probit.ppi_distribution st g1 g0 lamb).2.1
            g2 g0 lamb).2.1 = (Probit.ppi_distribution st g1 g0 lamb).2.1)
      ∧ ((Probit.probit_distribution (Probit.probit_distribution st x).2.1 x).1
          = (Probit.probit_distribution st x).1
        ∧ (Probit.probit_distribution (Probit.probit_distribution st x).2.1 x).2.2
          = false
        ∧ (Probit.probit_distribution (Probit.probit_distribution st x).2.1 x).2.1
          = (Probit.probit_distribution st x).2.1) := by
  intro N P st g1 g2 g0 lamb x hdata
  have hkey : ppiKey st.selfOid g1 g0 lamb = ppiKey st.selfOid g2 g0 lamb := by
    unfold ppiKey cache_key
    rw [hdata]
    simp
  constructor
  · have hlk : (Probit.ppi_distribution st g1 g0 lamb).2.1.ppiCache.lookup
        (ppiKey st.selfOid g1 g0 lamb)
        = some (Probit.ppi_distribution st g1 g0 lamb).1 :=
      cachedCall_lookup st.ppiCache (ppiKey st.selfOid g1 g0 lamb)
        (fun _ => ppiCov st.X g1.data g0 lamb)
    have hlk2 : (Probit.ppi_distribution st g1 g0 lamb).2.1.ppiCache.lookup
        (ppiKey (Probit.ppi_distribution st g1 g0 lamb).2.1.selfOid g2 g0 lamb)
        = some (Probit.ppi_distribution st g1 g0 lamb).1 := by
      have hso : (Probit.ppi_distribution st g1 g0 lamb).2.1.selfOid = st.selfOid := rfl
      rw [hso, ← hkey]
      exact hlk
    have hhit := cachedCall_hit
      (Probit.ppi_distribution st g1 g0 lamb).2.1.ppiCache
      (ppiKey (Probit.ppi_distribution st g1 g0 lamb).2.1.selfOid g2 g0 lamb)
      (Probit.ppi_distribution st g1 g0 lamb).1
      (fun _ => ppiCov (Probit.ppi_distribution st g1 g0 lamb).2.1.X g2.data g0 lamb)
      hlk2
    refine ⟨hkey, ?_, ?_, ?_⟩
    · show (cachedCall (Probit.ppi_distribution st g1 g0 lamb).2.1.ppiCache
        (ppiKey (Probit.ppi_distribution st g1 g0 lamb).2.1.selfOid g2 g0 lamb)
        (fun _ => ppiCov (Probit.ppi_distribution st g1 g0 lamb).2.1.X g2.data g0 lamb)).1
        = (Probit.ppi_distribution st g1 g0 lamb).1
      rw [hhit]
    · show (cachedCall (Probit.ppi_distribution st g1 g0 lamb).2.1.ppiCache
        (ppiKey (Probit.ppi_distribution st g1 g0 lamb).2.1.selfOid g2 g0 lamb)
        (fun _ => ppiCov (Probit.ppi_distribution st g1 g0 lamb).2.1.X g2.data g0 lamb)).2.2
        = false
      rw [hhit]
    · show ({ (Probit.ppi_distribution st g1 g0 lamb).2.1 with
          ppiCache := (cachedCall (Probit.ppi_distribution st g1 g0 lamb).2.1.ppiCache
            (ppiKey (Probit.ppi_distribution st g1 g0 lamb).2.1.selfOid g2 g0 lamb)
            (fun _ => ppiCov (Probit.ppi_distribution st g1 g0 lamb).2.1.X g2.data
              g0 lamb)).2.1 } : ProbitState N P)
        = (Probit.ppi_distribution st g1 g0 lamb).2.1
      rw [hhit]
  · have hlk : (Probit.probit_distribution st x).2.1.probitCache.lookup
        (probitKey st.selfOid x) = some (Probit.probit_distribution st x).1 :=
      cachedCall_lookup st.probitCache (probitKey st.selfOid x)
        (fun _ => probitCov st.Rcov x)
    have hlk2 : (Probit.probit_distribution st x).2.1.probitCache.lookup
        (probitKey (Probit.probit_distribution st x).2.1.selfOid x)
        = some (Probit.probit_distribution st x).1 := hlk
    have hhit := cachedCall_hit (Probit.probit_distribution st x).2.1.probitCache
      (probitKey (Probit.probit_distribution st x).2.1.selfOid x)
      (Probit.probit_distribution st x).1
      (fun _ => probitCov (Probit.probit_distribution st x).2.1.Rcov x) hlk2
    refine ⟨?_, ?_, ?_⟩
    · show (cachedCall (Probit.probit_distribution st x).2.1.probitCache
        (probitKey (Probit.probit_distribution st x).2.1.selfOid x)
        (fun _ => probitCov (Probit.probit_distribution st x).2.1.Rcov x)).1
        = (Probit.probit_distribution st x).1
      rw [hhit]
    · show (cachedCall (Probit.probit_distribution st x).2.1.probitCache
        (probitKey (Probit.probit_distribution st x).2.1.selfOid x)
        (fun _ => probitCov (Probit.probit_distribution st x).2.1.Rcov x)).2.2
        = false
      rw [hhit]
    · show ({ (Probit.probit_distribution st x).2.1 with
          probitCache := (cachedCall (Probit.probit_distribution st x).2.1.probitCache
            (probitKey (Probit.probit_distribution st x).2.1.selfOid x)
            (fun _ => probitCov (Probit.probit_distribution st x).2.1.Rcov x)).2.1 }
          : ProbitState N P)
        = (Probit.probit_distribution st x).2.1
      rw [hhit]

theorem C9_cache_key_by_value_witness :
    ppiKey state1.selfOid ⟨1, state1.gamma⟩ 0 1
      = ppiKey state1.selfOid ⟨2, state1.gamma⟩ 0 1
    ∧ (Probit.ppi_distribution (Probit.ppi_distribution state1 ⟨1, state1.gamma⟩ 0 1).2.1
        ⟨2, state1.gamma⟩ 0 1).2.2 = false :=
  ⟨(C9_cache_key_by_value state1 ⟨1, state1.gamma⟩ ⟨2, state1.gamma⟩ 0 1 (1/2) rfl).1.1,
   (C9_cache_key_by_value state1 ⟨1, state1.gamma⟩ ⟨2, state1.gamma⟩ 0 1 (1/2) rfl).1.2.2.1⟩

/-- C6: in `update_xi`, the candidate log-density returns `-∞` for every
candidate outside the open interval `(0, 1)`; a linear-algebra failure
while re-correlating the whitened `gamma` under the candidate `xi`'s
probit distribution is mapped to `-∞` instead of propagating; and after
the slice sampler accepts a new `xi` the model's `gamma` is re-correlated
from the whitened value under the accepted `xi`'s probit distribution. -/
theorem C6_update_xi_error_policy :
    ∀ {N P : ℕ} (o : Oracles N P) (d : Draws N P) (st : ProbitState N P)
      (whitened : Fin P → ℚ),
      (∀ x : ℚ, (x ≤ 0 ∨ 1 ≤ x) → Probit.xiSliceFn o st whitened x = ⊥)
      ∧ (∀ x : ℚ, o.correlate (probitCov st.Rcov x) whitened = none →
          Probit.xiSliceFn o st whitened x = ⊥)
      ∧ (ProbitCacheOK st → ∀ g : Fin P → ℚ,
          o.correlate (probitCov st.Rcov (Probit.xiProposal o d st))
            (Probit.xiWhitened o st) = some g →
          ∃ st', Probit.update_xi o d st = .ok st'
            ∧ st'.xi = Probit.xiProposal o d st ∧ st'.gamma = g) := by
  intro N P o d st whitened
  refine ⟨?_, ?_, ?_⟩
  · intro x h
    unfold Probit.xiSliceFn
    rw [if_pos h]
  · intro x hc
    unfold Probit.xiSliceFn
    by_cases h : x ≤ 0 ∨ 1 ≤ x
    · rw [if_pos h]
    · rw [if_neg h, hc]
  · intro hok g hcor
    have hok2 : ProbitCacheOK ({ (Probit.probit_distribution st st.xi).2.1 with
        xi := Probit.xiProposal o d st } : ProbitState N P) :=
      probit_distribution_cacheOK st st.xi hok
    have hval : (Probit.probit_distribution
        ({ (Probit.probit_distribution st st.xi).2.1 with
          xi := Probit.xiProposal o d st } : ProbitState N P)
        (Probit.xiProposal o d st)).1
        = probitCov st.Rcov (Probit.xiProposal o d st) :=
      probit_distribution_val _ (Probit.xiProposal o d st) hok2
    have hform : Probit.update_xi o d st
        = (match o.correlate (Probit.probit_distribution
            ({ (Probit.probit_distribution st st.xi).2.1 with
              xi := Probit.xiProposal o d st } : ProbitState N P)
            (Probit.xiProposal o d st)).1 (Probit.xiWhitened o st) with
          | none => .error ()
          | some g2 => .ok { (Probit.probit_distribution
              ({ (Probit.probit_distribution st st.xi).2.1 with
                xi := Probit.xiProposal o d st } : ProbitState N P)
              (Probit.xiProposal o d st)).2.1 with gamma := g2 }) := rfl
    rw [hval, hcor] at hform
    exact ⟨_, hform, rfl, rfl⟩

theorem C6_update_xi_error_policy_witness :
    Probit.xiSliceFn (oracles0 1 1) state1 (fun _ => 0) 2 = ⊥
    ∧ ProbitCacheOK state1
    ∧ ∃ st', Probit.update_xi (oracles0 1 1) (draws0 1 1) state1 = .ok st'
        ∧ st'.xi = Probit.xiProposal (oracles0 1 1) (draws0 1 1) state1
        ∧ st'.gamma = Probit.xiWhitened (oracles0 1 1) state1 := by
  have hok : ProbitCacheOK state1 := by
    intro p hp x hkey
    have hitems : state1.probitCache.items
        = [(probitKey 0 (999999/1000000), probitCov state1.Rcov (999999/1000000))] := rfl
    rw [hitems] at hp
    rcases List.mem_singleton.1 hp with h
    rw [h] at hkey ⊢
    simp only at hkey ⊢
    rcases probitKey_inj hkey with ⟨_, hx⟩
    rw [← hx]
  refine ⟨(C6_update_xi_error_policy (oracles0 1 1) (draws0 1 1) state1 (fun _ => 0)).1 2
      (Or.inr (by norm_num)), hok, ?_⟩
  exact (C6_update_xi_error_policy (oracles0 1 1) (draws0 1 1) state1 (fun _ => 0)).2.2
    hok (Probit.xiWhitened (oracles0 1 1) state1) rfl

theorem PpiCacheOK_of_eq {N P : ℕ} {st st' : ProbitState N P}
    (hX : st'.X = st.X) (ho : st'.selfOid = st.selfOid)
    (hc : st'.ppiCache = st.ppiCache) (h : PpiCacheOK st) : PpiCacheOK st' := by
  intro p hp g g0 l hk
  rw [hc] at hp
  rw [ho] at hk
  rw [hX]
  exact h p hp g g0 l hk

theorem ProbitCacheOK_of_eq {N P : ℕ} {st st' : ProbitState N P}
    (hR : st'.Rcov = st.Rcov) (ho : st'.selfOid = st.selfOid)
    (hc : st'.probitCache = st.probitCache) (h : ProbitCacheOK st) :
    ProbitCacheOK st' := by
  intro p hp x hk
  rw [hc] at hp
  rw [ho] at hk
  rw [hR]
  exact h p hp x hk

/-- A lambda candidate whose closure evaluation completed with a finite
value is strictly positive: the guard rejects negatives with `-∞` and the
evaluation at `0` fails. -/
theorem lambdaSliceFn_ok_pos {N P : ℕ} (o : Oracles N P) (st : ProbitState N P)
    (l v : ℚ) (h : Probit.lambdaSliceFn o st l = .ok (v : WithBot ℚ)) : 0 < l := by
  unfold Probit.lambdaSliceFn at h
  by_cases h1 : l < 0
  · rw [if_pos h1] at h
    exact absurd (Except.ok.inj h) (by simp)
  · by_cases h2 : l = 0
    · rw [if_neg h1, if_pos h2] at h
      exact Except.noConfusion h
    · exact lt_of_le_of_ne (not_lt.1 h1) (Ne.symm h2)

/-- A xi candidate whose closure evaluation is finite lies in the open
interval `(0, 1)` and its re-correlation succeeded. -/
theorem xiSliceFn_coe_bounds {N P : ℕ} (o : Oracles N P) (st : ProbitState N P)
    (w : Fin P → ℚ) (x v : ℚ)
    (h : Probit.xiSliceFn o st w x = (v : WithBot ℚ)) :
    (0 < x ∧ x < 1) ∧ ∃ g, o.correlate (probitCov st.Rcov x) w = some g := by
  unfold Probit.xiSliceFn at h
  by_cases h1 : x ≤ 0 ∨ 1 ≤ x
  · rw [if_pos h1] at h
    exact absurd h (by simp)
  · rw [if_neg h1] at h
    push_neg at h1
    refine ⟨⟨h1.1, h1.2⟩, ?_⟩
    cases hc : o.correlate (probitCov st.Rcov x) w with
    | none => rw [hc] at h; exact absurd h (by simp)
    | some g => exact ⟨g, rfl⟩

/-- The gamma variate drawn by `update_nu` has positive shape and scale
whenever the hyperparameters are positive and the external `Mvn.maha` is
a genuine squared Mahalanobis distance — nonnegative, as spec §4.1
computes it under the distribution's regularized positive-semidefinite
covariance; a draw from the support of that distribution is strictly
positive. -/
theorem update_nu_pos {N P : ℕ} (o : Oracles N P) (d : Draws N P)
    (st : ProbitState N P) (ha : 0 < st.nu_a) (hb : 0 < st.nu_b)
    (hmaha : ∀ (A : Matrix (Fin N) (Fin N) ℚ) (y : Fin N → ℚ), 0 ≤ o.mahaN A y)
    (hdraw : ∀ a s : ℚ, 0 < a → 0 < s → 0 < d.gammaVariate a s) :
    0 < (Probit.update_nu o d st).nu := by
  show 0 < d.gammaVariate (st.nu_a + (1/2 : ℚ) * (N : ℚ))
      (1 / (st.nu_b + (1/2 : ℚ)
        * o.mahaN (Probit.ppi_distribution st ⟨0, st.gamma⟩ st.gamma0 st.lamb).1 st.Y))
  have hm := hmaha (Probit.ppi_distribution st ⟨0, st.gamma⟩ st.gamma0 st.lamb).1 st.Y
  have hN : (0 : ℚ) ≤ (N : ℚ) := Nat.cast_nonneg N
  apply hdraw
  · linarith
  · have hden : 0 < st.nu_b + (1/2 : ℚ)
        * o.mahaN (Probit.ppi_distribution st ⟨0, st.gamma⟩ st.gamma0 st.lamb).1 st.Y := by
      linarith
    exact one_div_pos.2 hden

/-- `update_xi` either propagates the failure of the final
re-correlation, or succeeds with `xi` set to the accepted proposal and
`gamma` to the re-correlated whitened value. -/
theorem update_xi_cases {N P : ℕ} (o : Oracles N P) (d : Draws N P)
    (st : ProbitState N P) :
    (o.correlate (Probit.probit_distribution
        ({ (Probit.probit_distribution st st.xi).2.1 with
          xi := Probit.xiProposal o d st } : ProbitState N P)
        (Probit.xiProposal o d st)).1 (Probit.xiWhitened o st) = none
      ∧ Probit.update_xi o d st = .error ())
    ∨ (∃ g, o.correlate (Probit.probit_distribution
        ({ (Probit.probit_distribution st st.xi).2.1 with
          xi := Probit.xiProposal o d st } : ProbitState N P)
        (Probit.xiProposal o d st)).1 (Probit.xiWhitened o st) = some g
      ∧ Probit.update_xi o d st = .ok { (Probit.probit_distribution
          ({ (Probit.probit_distribution st st.xi).2.1 with
            xi := Probit.xiProposal o d st } : ProbitState N P)
          (Probit.xiProposal o d st)).2.1 with gamma := g }) := by
  have hform : Probit.update_xi o d st
      = (match o.correlate (Probit.probit_distribution
          ({ (Probit.probit_distribution st st.xi).2.1 with
            xi := Probit.xiProposal o d st } : ProbitState N P)
          (Probit.xiProposal o d st)).1 (Probit.xiWhitened o st) with
        | none => .error ()
        | some g2 => .ok { (Probit.probit_distribution
            ({ (Probit.probit_distribution st st.xi).2.1 with
              xi := Probit.xiProposal o d st } : ProbitState N P)
            (Probit.xiProposal o d st)).2.1 with gamma := g2 }) := rfl
  cases hc : o.correlate (Probit.probit_distribution
      ({ (Probit.probit_distribution st st.xi).2.1 with
        xi := Probit.xiProposal o d st } : ProbitState N P)
      (Probit.xiProposal o d st)).1 (Probit.xiWhitened o st) with
  | none =>
    left
    rw [hc] at hform
    exact ⟨rfl, hform⟩
  | some g =>
    right
    rw [hc] at hform
    exact ⟨g, rfl, hform⟩

/-- With `sample_xi` unset, one sweep is exactly the four updates. -/
theorem update_parameters_no_xi {N P : ℕ} (o : Oracles N P) (d : Draws N P)
    (st : ProbitState N P) (h : st.sample_xi = false) :
    Probit.update_parameters o d st
      = .ok (Probit.update_nu o d (Probit.update_lambda o d
          (Probit.update_gamma0 o d (Probit.update_gamma o d st)))) := by
  have hs : (Probit.update_nu o d (Probit.update_lambda o d
      (Probit.update_gamma0 o d (Probit.update_gamma o d st)))).sample_xi
      = st.sample_xi := by simp
  simp only [Probit.update_parameters]
  rw [hs, h]
  simp

/-- C8: the model-state invariant `0 < xi < 1`, `nu > 0`, `lambda > 0`
(the `gamma`-has-`P`-entries clause is carried by the type of the
`gamma` field) holds after construction for admissible constructor
arguments, and is preserved by every `update_parameters` sweep whose
slice-sampler draws are accepted candidates (a returned candidate's
closure evaluation completed with a finite value — the guarantee of the
samplers' acceptance step), whose gamma variate lies in the
distribution's support (`np.random.gamma` on positive shape and scale),
and whose external `Mvn.maha` is a genuine squared Mahalanobis distance
(nonnegative, as spec §4.1 computes it under the regularized
positive-semidefinite covariance); in particular every value produced by
`update_nu` is strictly positive, since its gamma variate's shape
`nu_a + N/2` and rate `nu_b + maha/2` are then both positive. -/
theorem C8_invariant_preserved :
    (∀ {N P : ℕ} (o : Oracles N P) (rvs : Matrix (Fin P) (Fin P) ℚ → Fin P → ℚ)
        (X : Matrix (Fin N) (Fin P) ℚ) (Y : Fin N → ℚ)
        (R : Matrix (Fin P) (Fin P) ℚ) (ts gv : ℚ) (lp nup : ℚ × ℚ)
        (xa : Option ℚ) (xs : ℚ × ℚ) (cf : Bool) (me jit : ℚ) (so : ℕ),
        0 < lp.1 → 0 < lp.2 → 0 < nup.1 → 0 < nup.2 →
        (∀ x : ℚ, xa = some x → 0 < x ∧ x < 1) →
        (xa = none → 0 < xs.1 ∧ 0 < xs.2) →
        Probit.Invariant (Probit.init o rvs X Y R ts gv lp nup xa xs cf me jit so))
    ∧ (∀ {N P : ℕ} (o : Oracles N P) (d : Draws N P) (st : ProbitState N P),
        0 < st.nu_a → 0 < st.nu_b →
        (∀ (A : Matrix (Fin N) (Fin N) ℚ) (y : Fin N → ℚ), 0 ≤ o.mahaN A y) →
        (∀ a s : ℚ, 0 < a → 0 < s → 0 < d.gammaVariate a s) →
        0 < (Probit.update_nu o d st).nu)
    ∧ (∀ {N P : ℕ} (o : Oracles N P) (d : Draws N P) (st st' : ProbitState N P),
        Probit.Invariant st → 0 < st.nu_a → 0 < st.nu_b →
        ProbitCacheOK st →
        (∀ (A : Matrix (Fin N) (Fin N) ℚ) (y : Fin N → ℚ), 0 ≤ o.mahaN A y) →
        (∀ a s : ℚ, 0 < a → 0 < s → 0 < d.gammaVariate a s) →
        (∃ v : ℚ, Probit.lambdaSliceFn o
            (Probit.update_gamma0 o d (Probit.update_gamma o d st))
            (d.sliceLam (Probit.lambdaSliceFn o
                (Probit.update_gamma0 o d (Probit.update_gamma o d st)))
              (Probit.update_gamma0 o d (Probit.update_gamma o d st)).lamb)
            = .ok (v : WithBot ℚ)) →
        (st.sample_xi = true → ∃ v : ℚ,
            Probit.xiSliceFn o
              (Probit.update_nu o d (Probit.update_lambda o d
                (Probit.update_gamma0 o d (Probit.update_gamma o d st))))
              (Probit.xiWhitened o (Probit.update_nu o d (Probit.update_lambda o d
                (Probit.update_gamma0 o d (Probit.update_gamma o d st)))))
              (Probit.xiProposal o d (Probit.update_nu o d (Probit.update_lambda o d
                (Probit.update_gamma0 o d (Probit.update_gamma o d st)))))
              = (v : WithBot ℚ)) →
        Probit.update_parameters o d st = .ok st' →
        Probit.Invariant st') := by
  refine ⟨?_, ?_, ?_⟩
  · intro N P o rvs X Y R ts gv lp nup xa xs cf me jit so h1 h2 h3 h4 hsome hnone
    refine ⟨?_, ?_, ?_, ?_⟩
    · cases xa with
      | none =>
        rcases hnone rfl with ⟨hxa, hxb⟩
        show (0 : ℚ) < xs.1 / (xs.1 + xs.2)
        exact div_pos hxa (by linarith)
      | some x => exact (hsome x rfl).1
    · cases xa with
      | none =>
        rcases hnone rfl with ⟨hxa, hxb⟩
        show xs.1 / (xs.1 + xs.2) < 1
        rw [div_lt_one (by linarith)]
        linarith
      | some x => exact (hsome x rfl).2
    · show (0 : ℚ) < nup.1 * (1 / nup.2)
      exact mul_pos h3 (one_div_pos.2 h4)
    · show (0 : ℚ) < lp.1 * (1 / lp.2)
      exact mul_pos h1 (one_div_pos.2 h2)
  · intro N P o d st ha hb hmaha hdraw
    exact update_nu_pos o d st ha hb hmaha hdraw
  · intro N P o d st st' hinv ha hb hprob hmaha hdraw hlam hxi hstep
    simp only [Probit.update_parameters] at hstep
    set st2 := Probit.update_gamma0 o d (Probit.update_gamma o d st) with hst2
    set st3 := Probit.update_lambda o d st2 with hst3
    set st4 := Probit.update_nu o d st3 with hst4
    have hl3 : 0 < st3.lamb := by
      obtain ⟨v, hv⟩ := hlam
      have hlv : st3.lamb = d.sliceLam (Probit.lambdaSliceFn o st2) st2.lamb := rfl
      rw [hlv]
      exact lambdaSliceFn_ok_pos o st2 _ v hv
    have hnu4 : 0 < st4.nu := by
      rw [hst4]
      exact update_nu_pos o d st3 (by simp [hst3, hst2]; exact ha)
        (by simp [hst3, hst2]; exact hb) hmaha hdraw
    have hl4 : 0 < st4.lamb := by
      have : st4.lamb = st3.lamb := by simp [hst4]
      rw [this]
      exact hl3
    have hs4 : st4.sample_xi = st.sample_xi := by simp [hst4, hst3, hst2]
    cases hsx : st.sample_xi with
    | false =>
      rw [hs4, hsx] at hstep
      simp only [Bool.false_eq_true, if_false] at hstep
      have hst' : st4 = st' := Except.ok.inj hstep
      rw [← hst']
      refine ⟨?_, ?_, hnu4, hl4⟩
      · have : st4.xi = st.xi := by simp [hst4, hst3, hst2]
        rw [this]
        exact hinv.1
      · have : st4.xi = st.xi := by simp [hst4, hst3, hst2]
        rw [this]
        exact hinv.2.1
    | true =>
      rw [hs4, hsx] at hstep
      simp only [if_true] at hstep
      obtain ⟨v, hv⟩ := hxi hsx
      have hbounds := xiSliceFn_coe_bounds o st4 (Probit.xiWhitened o st4)
        (Probit.xiProposal o d st4) v hv
      rcases hbounds with ⟨⟨hx1, hx2⟩, g, hg⟩
      have hprob1 : ProbitCacheOK (Probit.update_gamma o d st) :=
        ProbitCacheOK_of_eq rfl rfl rfl (probit_distribution_cacheOK st st.xi hprob)
      have hprob4 : ProbitCacheOK st4 :=
        ProbitCacheOK_of_eq (by simp [hst4, hst3, hst2]) (by simp [hst4, hst3, hst2])
          (by simp [hst4, hst3, hst2]) hprob1
      have hprob2' : ProbitCacheOK
          ({ (Probit.probit_distribution st4 st4.xi).2.1 with
            xi := Probit.xiProposal o d st4 } : ProbitState N P) :=
        ProbitCacheOK_of_eq rfl rfl rfl (probit_distribution_cacheOK st4 st4.xi hprob4)
      have hval2 : (Probit.probit_distribution
          ({ (Probit.probit_distribution st4 st4.xi).2.1 with
            xi := Probit.xiProposal o d st4 } : ProbitState N P)
          (Probit.xiProposal o d st4)).1
          = probitCov st4.Rcov (Probit.xiProposal o d st4) :=
        probit_distribution_val _ (Probit.xiProposal o d st4) hprob2'
      rcases update_xi_cases o d st4 with ⟨hnone2, _⟩ | ⟨g2, hsome2, hok2⟩
      · rw [hval2, hg] at hnone2
        exact Option.noConfusion hnone2
      · rw [hok2] at hstep
        have hst' := Except.ok.inj hstep
        rw [← hst']
        refine ⟨hx1, hx2, hnu4, hl4⟩

theorem C8_invariant_preserved_witness :
    Probit.Invariant state1
    ∧ Probit.Invariant (Probit.update_nu (oracles0 1 1) (draws0 1 1)
        (Probit.update_lambda (oracles0 1 1) (draws0 1 1)
          (Probit.update_gamma0 (oracles0 1 1) (draws0 1 1)
            (Probit.update_gamma (oracles0 1 1) (draws0 1 1) state1)))) := by
  have hprob : ProbitCacheOK state1 := by
    intro p hp x hkey
    have hitems : state1.probitCache.items
        = [(probitKey 0 (999999/1000000), probitCov state1.Rcov (999999/1000000))] := rfl
    rw [hitems] at hp
    rcases List.mem_singleton.1 hp with h
    rw [h] at hkey ⊢
    simp only at hkey ⊢
    rcases probitKey_inj hkey with ⟨_, hx⟩
    rw [← hx]
  have hxi1 : state1.xi = 999999/1000000 := rfl
  have hnu1 : state1.nu = (1/1000000 : ℚ) * (1 / (1/1000000)) := rfl
  have hlam1 : state1.lamb = (1/1000000 : ℚ) * (1 / (1/1000000)) := rfl
  have hinv : Probit.Invariant state1 := by
    refine ⟨?_, ?_, ?_, ?_⟩
    · rw [hxi1]; norm_num
    · rw [hxi1]; norm_num
    · rw [hnu1]; norm_num
    · rw [hlam1]; norm_num
  have hdraw : ∀ a s : ℚ, 0 < a → 0 < s → 0 < (draws0 1 1).gammaVariate a s := by
    intro a s _ _
    norm_num [draws0]
  have hlam : ∃ v : ℚ, Probit.lambdaSliceFn (oracles0 1 1)
      (Probit.update_gamma0 (oracles0 1 1) (draws0 1 1)
        (Probit.update_gamma (oracles0 1 1) (draws0 1 1) state1))
      ((draws0 1 1).sliceLam (Probit.lambdaSliceFn (oracles0 1 1)
          (Probit.update_gamma0 (oracles0 1 1) (draws0 1 1)
            (Probit.update_gamma (oracles0 1 1) (draws0 1 1) state1)))
        (Probit.update_gamma0 (oracles0 1 1) (draws0 1 1)
          (Probit.update_gamma (oracles0 1 1) (draws0 1 1) state1)).lamb)
      = .ok ((v : ℚ) : WithBot ℚ) := by
    refine ⟨0, ?_⟩
    show Probit.lambdaSliceFn (oracles0 1 1)
      (Probit.update_gamma0 (oracles0 1 1) (draws0 1 1)
        (Probit.update_gamma (oracles0 1 1) (draws0 1 1) state1))
      ((1/1000000 : ℚ) * (1 / (1/1000000))) = .ok ((0 : ℚ) : WithBot ℚ)
    unfold Probit.lambdaSliceFn
    rw [if_neg (by norm_num), if_neg (by norm_num)]
    norm_num [Probit.logMargLikePure, oracles0]
  have hna : (0 : ℚ) < state1.nu_a := by
    rw [show state1.nu_a = (1/1000000 : ℚ) from rfl]
    norm_num
  have hnb : (0 : ℚ) < state1.nu_b := by
    rw [show state1.nu_b = (1/1000000 : ℚ) from rfl]
    norm_num
  refine ⟨hinv, ?_⟩
  exact C8_invariant_preserved.2.2 (oracles0 1 1) (draws0 1 1) state1 _ hinv
    hna hnb hprob (fun A y => dotProduct_self_nonneg y) hdraw hlam
    (fun h => absurd ((show state1.sample_xi = false from rfl).symm.trans h)
      Bool.false_ne_true)
    (update_parameters_no_xi (oracles0 1 1) (draws0 1 1) state1 rfl)

theorem mcmcLoop_final {N P : ℕ} (o : Oracles N P) (draws : ℕ → Draws N P)
    (burn_in : ℕ) :
    ∀ (rem k : ℕ) (st : ProbitState N P) (acc recs : List (SweepRecord P))
      (stF : ProbitState N P),
      Probit.mcmcLoop o draws burn_in k st acc rem = .ok (recs, stF) →
      Probit.sweepIter o draws rem k st = .ok stF := by
  intro rem
  induction rem with
  | zero =>
    intro k st acc recs stF h
    simp only [Probit.mcmcLoop] at h
    have h2 := Except.ok.inj h
    injection h2 with h3 h4
    simp only [Probit.sweepIter]
    rw [h4]
  | succ r ih =>
    intro k st acc recs stF h
    simp only [Probit.mcmcLoop] at h
    simp only [Probit.sweepIter]
    cases hu : Probit.update_parameters o (draws k)
        (Probit.log_marg_like o (Probit.log_joint o st).2
          ⟨0, (Probit.log_joint o st).2.gamma⟩ (Probit.log_joint o st).2.gamma0
          (Probit.log_joint o st).2.lamb (Probit.log_joint o st).2.nu).2 with
    | error e =>
      rw [hu] at h
      exact Except.noConfusion h
    | ok st' =>
      rw [hu] at h
      exact ih (k + 1) st' _ recs stF h

theorem mcmcLoop_length {N P : ℕ} (o : Oracles N P) (draws : ℕ → Draws N P)
    (burn_in : ℕ) :
    ∀ (rem k : ℕ) (st : ProbitState N P) (acc recs : List (SweepRecord P))
      (stF : ProbitState N P),
      Probit.mcmcLoop o draws burn_in k st acc rem = .ok (recs, stF) →
      recs.length = acc.length + (rem - (burn_in - k)) := by
  intro rem
  induction rem with
  | zero =>
    intro k st acc recs stF h
    simp only [Probit.mcmcLoop] at h
    have h2 := Except.ok.inj h
    injection h2 with h3 h4
    rw [← h3]
    omega
  | succ r ih =>
    intro k st acc recs stF h
    simp only [Probit.mcmcLoop] at h
    cases hu : Probit.update_parameters o (draws k)
        (Probit.log_marg_like o (Probit.log_joint o st).2
          ⟨0, (Probit.log_joint o st).2.gamma⟩ (Probit.log_joint o st).2.gamma0
          (Probit.log_joint o st).2.lamb (Probit.log_joint o st).2.nu).2 with
    | error e =>
      rw [hu] at h
      exact Except.noConfusion h
    | ok st' =>
      simp only [hu] at h
      by_cases hbk : burn_in ≤ k
      · rw [if_pos hbk] at h
        have := ih (k + 1) st' _ recs stF h
        rw [this]
        simp only [List.length_append, List.length_cons, List.length_nil]
        omega
      · rw [if_neg hbk] at h
        have := ih (k + 1) st' _ recs stF h
        rw [this]
        omega

theorem argmaxAux_spec : ∀ (t : List ℚ) (i : ℕ) (b : ℕ × ℚ),
    (argmaxAux t i b = b ∨ ∃ k, ∃ hk : k < t.length,
        argmaxAux t i b = (i + k, t.get ⟨k, hk⟩))
    ∧ b.2 ≤ (argmaxAux t i b).2
    ∧ ∀ v ∈ t, v ≤ (argmaxAux t i b).2 := by
  intro t
  induction t with
  | nil =>
    intro i b
    refine ⟨Or.inl rfl, le_refl _, ?_⟩
    intro v hv
    simp at hv
  | cons x t ih =>
    intro i b
    have hstep : argmaxAux (x :: t) i b
        = argmaxAux t (i + 1) (if b.2 < x then (i, x) else b) := rfl
    have hb' : b.2 ≤ (if b.2 < x then (i, x) else b).2 := by
      by_cases hc : b.2 < x
      · rw [if_pos hc]
        exact le_of_lt hc
      · rw [if_neg hc]
    have hx' : x ≤ (if b.2 < x then (i, x) else b).2 := by
      by_cases hc : b.2 < x
      · rw [if_pos hc]
      · rw [if_neg hc]
        exact not_lt.1 hc
    obtain ⟨hmem, hle, hall⟩ := ih (i + 1) (if b.2 < x then (i, x) else b)
    refine ⟨?_, ?_, ?_⟩
    · rw [hstep]
      rcases hmem with hm | ⟨k, hk, hm⟩
      · rw [hm]
        by_cases hc : b.2 < x
        · rw [if_pos hc]
          refine Or.inr ⟨0, by simp, ?_⟩
          simp
        · rw [if_neg hc]
          exact Or.inl rfl
      · rw [hm]
        refine Or.inr ⟨k + 1, by simpa using Nat.succ_lt_succ hk, ?_⟩
        refine Prod.ext ?_ ?_
        · simp
          omega
        · simp [List.get]
    · rw [hstep]
      exact le_trans hb' hle
    · intro v hv
      rw [hstep]
      rcases List.mem_cons.1 hv with hv | hv
      · rw [hv]
        exact le_trans hx' hle
      · exact hall v hv

theorem argmaxIdx_lt (l : List ℚ) (h : 0 < l.length) : argmaxIdx l < l.length := by
  cases l with
  | nil => simp at h
  | cons x t =>
    show (argmaxAux t 1 (0, x)).1 < t.length + 1
    rcases (argmaxAux_spec t 1 (0, x)).1 with hm | ⟨k, hk, hm⟩
    · rw [hm]
      simp
    · rw [hm]
      show 1 + k < t.length + 1
      omega

theorem argmax_get_val (l : List ℚ) (hlt : argmaxIdx l < l.length) :
    ∀ (x : ℚ) (t : List ℚ), l = x :: t →
      l.get ⟨argmaxIdx l, hlt⟩ = (argmaxAux t 1 (0, x)).2 := by
  intro x t he
  subst he
  rcases (argmaxAux_spec t 1 (0, x)).1 with hm | ⟨k, hk, hm⟩
  · have h1 : argmaxIdx (x :: t) = 0 := by
      show (argmaxAux t 1 (0, x)).1 = 0
      rw [hm]
    have h2 : (argmaxAux t 1 (0, x)).2 = x := by rw [hm]
    rw [h2]
    simp [h1]
  · have h1 : argmaxIdx (x :: t) = k + 1 := by
      show (argmaxAux t 1 (0, x)).1 = k + 1
      rw [hm]
      simp
      omega
    have h2 : (argmaxAux t 1 (0, x)).2 = t.get ⟨k, hk⟩ := by rw [hm]
    rw [h2]
    have h3 : (⟨argmaxIdx (x :: t), hlt⟩ : Fin (x :: t).length)
        = ⟨k + 1, by simpa using Nat.succ_lt_succ hk⟩ := by
      exact Fin.ext h1
    rw [h3]
    simp [List.get]

theorem argmax_is_max (l : List ℚ) (j : ℕ) (hj : j < l.length)
    (hlt : argmaxIdx l < l.length) :
    l.get ⟨j, hj⟩ ≤ l.get ⟨argmaxIdx l, hlt⟩ := by
  cases l with
  | nil => simp at hj
  | cons x t =>
    rw [argmax_get_val (x :: t) hlt x t rfl]
    cases j with
    | zero => exact (argmaxAux_spec t 1 (0, x)).2.1
    | succ k =>
      refine (argmaxAux_spec t 1 (0, x)).2.2 _ ?_
      show (x :: t).get ⟨k + 1, hj⟩ ∈ t
      have : (x :: t).get ⟨k + 1, hj⟩ = t.get ⟨k, by simpa using hj⟩ := by
        simp [List.get]
      rw [this]
      exact List.get_mem t k _

theorem incMean_count {P : ℕ} (l : List (Fin P → Bool)) (p : Fin P) :
    incMean l p = ((l.countP (fun v => v p) : ℕ) : ℚ) / (l.length : ℚ) := by
  unfold incMean
  congr 1
  induction l with
  | nil => simp
  | cons v t ih =>
    by_cases hv : v p
    · simp only [List.map, List.sum_cons, hv, if_true, ih]
      rw [List.countP_cons_of_pos _ _ (by simpa using hv)]
      push_cast
      ring
    · simp only [List.map, List.sum_cons, hv, if_false, ih]
      rw [List.countP_cons_of_neg _ _ (by simpa using hv)]
      simp

/-- With `sample_xi` unset every sweep succeeds, so the whole run
returns a result. -/
theorem mcmcLoop_total_no_xi {N P : ℕ} (o : Oracles N P)
    (draws : ℕ → Draws N P) (burn_in : ℕ) :
    ∀ (rem k : ℕ) (st : ProbitState N P) (acc : List (SweepRecord P)),
      st.sample_xi = false →
      ∃ out, Probit.mcmcLoop o draws burn_in k st acc rem = .ok out := by
  intro rem
  induction rem with
  | zero =>
    intro k st acc hs
    exact ⟨(acc, st), rfl⟩
  | succ r ih =>
    intro k st acc hs
    have hs2 : (Probit.log_marg_like o (Probit.log_joint o st).2
        ⟨0, (Probit.log_joint o st).2.gamma⟩ (Probit.log_joint o st).2.gamma0
        (Probit.log_joint o st).2.lamb (Probit.log_joint o st).2.nu).2.sample_xi
        = st.sample_xi := rfl
    have hupd := update_parameters_no_xi o (draws k)
      (Probit.log_marg_like o (Probit.log_joint o st).2
        ⟨0, (Probit.log_joint o st).2.gamma⟩ (Probit.log_joint o st).2.gamma0
        (Probit.log_joint o st).2.lamb (Probit.log_joint o st).2.nu).2
      (hs2.trans hs)
    have hs4 : (Probit.update_nu o (draws k) (Probit.update_lambda o (draws k)
        (Probit.update_gamma0 o (draws k) (Probit.update_gamma o (draws k)
          (Probit.log_marg_like o (Probit.log_joint o st).2
            ⟨0, (Probit.log_joint o st).2.gamma⟩ (Probit.log_joint o st).2.gamma0
            (Probit.log_joint o st).2.lamb
            (Probit.log_joint o st).2.nu).2)))).sample_xi = false := by
      simp [hs2.trans hs]
    obtain ⟨out, hout⟩ := ih (k + 1) _ (if burn_in ≤ k then acc ++
      [⟨(Probit.log_joint o st).1,
        fun p => decide ((Probit.update_nu o (draws k) (Probit.update_lambda o (draws k)
          (Probit.update_gamma0 o (draws k) (Probit.update_gamma o (draws k)
            (Probit.log_marg_like o (Probit.log_joint o st).2
              ⟨0, (Probit.log_joint o st).2.gamma⟩ (Probit.log_joint o st).2.gamma0
              (Probit.log_joint o st).2.lamb
              (Probit.log_joint o st).2.nu).2)))).gamma0
          < (Probit.update_nu o (draws k) (Probit.update_lambda o (draws k)
            (Probit.update_gamma0 o (draws k) (Probit.update_gamma o (draws k)
              (Probit.log_marg_like o (Probit.log_joint o st).2
                ⟨0, (Probit.log_joint o st).2.gamma⟩ (Probit.log_joint o st).2.gamma0
                (Probit.log_joint o st).2.lamb
                (Probit.log_joint o st).2.nu).2)))).gamma p),
        (Probit.update_nu o (draws k) (Probit.update_lambda o (draws k)
          (Probit.update_gamma0 o (draws k) (Probit.update_gamma o (draws k)
            (Probit.log_marg_like o (Probit.log_joint o st).2
              ⟨0, (Probit.log_joint o st).2.gamma⟩ (Probit.log_joint o st).2.gamma0
              (Probit.log_joint o st).2.lamb
              (Probit.log_joint o st).2.nu).2)))).gamma0,
        (Probit.update_nu o (draws k) (Probit.update_lambda o (draws k)
          (Probit.update_gamma0 o (draws k) (Probit.update_gamma o (draws k)
            (Probit.log_marg_like o (Probit.log_joint o st).2
              ⟨0, (Probit.log_joint o st).2.gamma⟩ (Probit.log_joint o st).2.gamma0
              (Probit.log_joint o st).2.lamb
              (Probit.log_joint o st).2.nu).2)))).lamb,
        (Probit.update_nu o (draws k) (Probit.update_lambda o (draws k)
          (Probit.update_gamma0 o (draws k) (Probit.update_gamma o (draws k)
            (Probit.log_marg_like o (Probit.log_joint o st).2
              ⟨0, (Probit.log_joint o st).2.gamma⟩ (Probit.log_joint o st).2.gamma0
              (Probit.log_joint o st).2.lamb
              (Probit.log_joint o st).2.nu).2)))).nu,
        (Probit.update_nu o (draws k) (Probit.update_lambda o (draws k)
          (Probit.update_gamma0 o (draws k) (Probit.update_gamma o (draws k)
            (Probit.log_marg_like o (Probit.log_joint o st).2
              ⟨0, (Probit.log_joint o st).2.gamma⟩ (Probit.log_joint o st).2.gamma0
              (Probit.log_joint o st).2.lamb
              (Probit.log_joint o st).2.nu).2)))).xi,
        (Probit.log_marg_like o (Probit.log_joint o st).2
          ⟨0, (Probit.log_joint o st).2.gamma⟩ (Probit.log_joint o st).2.gamma0
          (Probit.log_joint o st).2.lamb (Probit.log_joint o st).2.nu).1⟩]
      else acc) hs4
    refine ⟨out, ?_⟩
    simp only [Probit.mcmcLoop]
    rw [hupd]
    exact hout

/-- C7: `run_mcmc(iters, burn_in)` performs exactly `burn_in + iters`
`update_parameters` sweeps (the final state is the `burn_in + iters`-fold
sweep iterate) and records exactly `iters` entries; in non-detailed mode
the result is the joint log-density trace of the kept sweeps, and in
detailed mode the `inclusion` entry is the pair of the per-predictor mean
of the inclusion indicator `gamma > gamma0` over the kept sweeps and the
single inclusion vector at the kept sweep whose recorded joint
log-density is maximal (`np.argmax`). -/
theorem C7_run_mcmc_traces :
    ∀ {N P : ℕ} (o : Oracles N P) (draws : ℕ → Draws N P) (st : ProbitState N P)
      (iters burn_in : ℕ) (recs : List (SweepRecord P)) (stF : ProbitState N P),
      Probit.run_mcmc o draws st iters burn_in = .ok (recs, stF) →
      Probit.sweepIter o draws (burn_in + iters) 0 st = .ok stF
      ∧ recs.length = iters
      ∧ Probit.run_mcmc_joint o draws st iters burn_in
          = .ok (recs.map (fun s => s.joint))
      ∧ ∀ res, Probit.run_mcmc_detailed o draws st iters burn_in = .ok res →
          (∀ p, res.inclusionMean p
              = ((recs.countP (fun s => s.inc p) : ℕ) : ℚ) / (iters : ℚ))
          ∧ (0 < iters →
              ∃ hlt : argmaxIdx (recs.map (fun s => s.joint)) < recs.length,
                res.inclusionMap
                  = (recs.get ⟨argmaxIdx (recs.map (fun s => s.joint)), hlt⟩).inc
                ∧ ∀ j (hj : j < recs.length),
                    (recs.get ⟨j, hj⟩).joint
                      ≤ (recs.get ⟨argmaxIdx (recs.map (fun s => s.joint)),
                          hlt⟩).joint) := by
  intro N P o draws st iters burn_in recs stF h
  have hfin := mcmcLoop_final o draws burn_in (burn_in + iters) 0 st [] recs stF h
  have hlen0 := mcmcLoop_length o draws burn_in (burn_in + iters) 0 st [] recs stF h
  have hlen : recs.length = iters := by
    rw [hlen0]
    simp only [List.length_nil]
    omega
  refine ⟨hfin, hlen, ?_, ?_⟩
  · unfold Probit.run_mcmc_joint
    rw [h]
    rfl
  · intro res hres
    unfold Probit.run_mcmc_detailed at hres
    rw [h] at hres
    have hres2 := Except.ok.inj hres
    constructor
    · intro p
      rw [← hres2]
      show incMean (recs.map (fun s => s.inc)) p = _
      rw [incMean_count, List.countP_map, List.length_map, hlen]
      rfl
    · intro hit
      have hlcast : (recs.map (fun s => s.joint)).length = recs.length :=
        List.length_map _ _
      have hpos : 0 < (recs.map (fun s => s.joint)).length := by
        rw [hlcast, hlen]
        exact hit
      have hlt0 : argmaxIdx (recs.map (fun s => s.joint))
          < (recs.map (fun s => s.joint)).length := argmaxIdx_lt _ hpos
      have hlt : argmaxIdx (recs.map (fun s => s.joint)) < recs.length := by
        rw [← hlcast]
        exact hlt0
      refine ⟨hlt, ?_, ?_⟩
      · rw [← hres2]
        show (recs.map (fun s => s.inc)).getD
          (argmaxIdx (recs.map (fun s => s.joint))) (fun _ => false) = _
        have hglt : argmaxIdx (recs.map (fun s => s.joint))
            < (recs.map (fun s => s.inc)).length := by
          rw [List.length_map]
          exact hlt
        rw [List.getD_eq_getElem?_getD, List.getElem?_eq_getElem hglt]
        simp [List.getElem_map]
      · intro j hj
        have hj' : j < (recs.map (fun s => s.joint)).length := by
          rw [hlcast]
          exact hj
        have hmax := argmax_is_max (recs.map (fun s => s.joint)) j hj' hlt0
        have hg1 : (recs.map (fun s => s.joint)).get ⟨j, hj'⟩
            = (recs.get ⟨j, hj⟩).joint := by
          simp [List.getElem_map]
        have hg2 : (recs.map (fun s => s.joint)).get
            ⟨argmaxIdx (recs.map (fun s => s.joint)), hlt0⟩
            = (recs.get ⟨argmaxIdx (recs.map (fun s => s.joint)), hlt⟩).joint := by
          simp [List.getElem_map]
        rw [hg1, hg2] at hmax
        exact hmax

theorem C7_run_mcmc_traces_witness :
    ∃ (recs : List (SweepRecord 1)) (stF : ProbitState 1 1),
      Probit.run_mcmc (oracles0 1 1) (fun _ => draws0 1 1) state1 1 1
        = .ok (recs, stF)
      ∧ recs.length = 1
      ∧ Probit.sweepIter (oracles0 1 1) (fun _ => draws0 1 1) 2 0 state1
        = .ok stF := by
  obtain ⟨out, hout⟩ := mcmcLoop_total_no_xi (oracles0 1 1) (fun _ => draws0 1 1)
    1 2 0 state1 [] rfl
  have hrun : Probit.run_mcmc (oracles0 1 1) (fun _ => draws0 1 1) state1 1 1
      = .ok (out.1, out.2) := hout
  refine ⟨out.1, out.2, hrun, ?_, ?_⟩
  · exact (C7_run_mcmc_traces (oracles0 1 1) (fun _ => draws0 1 1) state1 1 1
      out.1 out.2 hrun).2.1
  · exact (C7_run_mcmc_traces (oracles0 1 1) (fun _ => draws0 1 1) state1 1 1
      out.1 out.2 hrun).1

end BSS
